import Mathlib

/-!
Shallow embedding of the `mumbo-lang` lexer (`src/lexer.rs`,
`src/lexer/lexer_impls.rs`, `src/lexer/lexer_impls/{high_level,identifiers,
skip_whitespace}.rs`).

Bytes are modelled as `Nat` (the source is a byte slice in the original);
the borrowed literal slice is modelled as the list of bytes it denotes.
Every loop of the original is modelled as structural recursion on an explicit
fuel argument; each public wrapper instantiates the fuel with
`source.length - index`, which is an upper bound on the number of iterations
(every iteration consumes at least one byte), so the wrapper computes exactly
the loop of the source.  Unchecked cursor primitives (`peek_unchecked`,
`advance_unchecked`, `backtrack_unchecked`) are total here, reading a default
`0` out of bounds; every call site below sits behind the same bounds guard as
in the source.
-/

set_option autoImplicit false

namespace Mumbo

/-- Token categories.  Modelled from the spec: the `Token` enum lives in
`src/types.rs`, which is not part of the sources; its variants are taken from
their uses in `src/lexer.rs` and `src/lexer/lexer_impls/*` (spec section 3
describes the same closed enumeration). -/
inductive Token where
  | PuncDot | PuncComma | PuncSemi | PuncColon
  | PuncPlus | PuncPlusEq | PuncStar | PuncStarEq | PuncSlash | PuncSlashEq
  | PuncMinus | PuncMinusEq | PuncArrowRight
  | PuncEq | PuncEqEq | PuncBang | PuncBangEq
  | PuncLt | PuncLtEq | PuncShl | PuncShlEq
  | PuncGt | PuncGtEq | PuncShr | PuncShrEq
  | PuncModulo | PuncModuloEq | PuncAnd | PuncAndEq
  | PuncOr | PuncOrEq | PuncXor | PuncXorEq
  | IndentLParen | IndentRParen | IndentLBrace | IndentRBrace
  | IndentLBracket | IndentRBracket
  | LitStr | LitChar | LitInteger | LitFloat | LitIdentifier | LitUninit
  | KwLet | KwFn | KwReturn | KwRuntime | KwExtern | KwAdtEnum
  | KwConst | KwCompiletime | KwCast | KwMut | KwAnymut
  | KwStatic | KwAdtStruct | KwType | KwAdtUnion
  deriving DecidableEq

/-- Modelled from the spec: `Token::is_identifier_extractable` is defined in
the missing `src/types.rs`; spec section 3 says each token carries "a flag
indicating whether it carries an extractable literal (true for the five
literal kinds, false otherwise)", the five literal kinds being identifier,
integer, float, string, character. -/
def Token.is_identifier_extractable : Token → Bool
  | .LitStr | .LitChar | .LitInteger | .LitFloat | .LitIdentifier => true
  | _ => false

/-- `LexerError` from `src/lexer.rs`.  `WithMessage` carries the static
message text. -/
inductive LexerError where
  | UnexpectedEofWhile (t : Token)
  | WithMessage (msg : String)
  | InvalidEscapeSequence
  | InvalidCharacter
  | UnclosedCharLiteral
  | NoLiteralToExtract
  | Eof
  | Internal
  deriving DecidableEq

deriving instance DecidableEq for Except

/-- Lexer state (`struct Lexer` in `src/lexer.rs`).  The borrowed source and
literal slices are modelled by the byte lists they denote. -/
structure Lexer where
  source : List Nat
  start : Nat
  index : Nat
  literal : Option (List Nat)
  line : Nat
  column : Nat
  deriving DecidableEq

namespace Lexer

/-- `Lexer::new`. -/
def new (source : List Nat) : Lexer :=
  { source := source, start := 0, index := 0, literal := none,
    line := 1, column := 0 }

/-- `Lexer::is_at_end`. -/
def is_at_end (l : Lexer) : Bool := decide (l.source.length ≤ l.index)

/-- `Lexer::peek_unchecked`, totalized with default byte `0`; each use below
sits behind the same `is_at_end` guard as in the source. -/
def byteAt (l : Lexer) : Nat := l.source.getD l.index 0

/-- `Lexer::peek`. -/
def peek (l : Lexer) : Option Nat := l.source[l.index]?

/-- `Lexer::peek_next`. -/
def peek_next (l : Lexer) : Option Nat := l.source[l.index + 1]?

/-- State effect of `Lexer::advance_unchecked` (the byte it returns is
`byteAt`): step the index, updating the line/column counters. -/
def advanceU (l : Lexer) : Lexer :=
  if l.byteAt = 10 then
    { l with index := l.index + 1, line := l.line + 1, column := 1 }
  else
    { l with index := l.index + 1, column := l.column + 1 }

/-- State effect of `Lexer::backtrack_unchecked` (the byte it returns is the
byte at the new index): step the index back, with the source's partial
line/column restoration. -/
def backtrackU (l : Lexer) : Lexer :=
  if l.source.getD (l.index - 1) 0 = 10 then
    { l with index := l.index - 1, line := l.line - 1, column := 1 }
  else
    { l with index := l.index - 1 }

/-- `Lexer::slice_here`: the bytes of `source[start..index]`. -/
def slice_here (l : Lexer) : List Nat :=
  (l.source.drop l.start).take (l.index - l.start)

end Lexer

/-- `is_whitespace` from `skip_whitespace.rs`. -/
def is_whitespace (byte : Nat) : Bool :=
  byte = 32 ∨ byte = 13 ∨ byte = 9 ∨ byte = 10

/-- Modelled from the spec: `numbers::is_valid_digit` lives in the missing
`src/lexer/lexer_impls/numbers.rs`; spec section 2 describes it as the pure
predicate deciding whether a byte "is a decimal digit". -/
def is_valid_digit (byte : Nat) : Bool := 48 ≤ byte ∧ byte ≤ 57

/-- `is_valid_identifier_tail` from `identifiers.rs` (ASCII alnum or `_`). -/
def is_valid_identifier_tail (byte : Nat) : Bool :=
  (97 ≤ byte ∧ byte ≤ 122) ∨ (65 ≤ byte ∧ byte ≤ 90) ∨ byte = 95 ∨
    (48 ≤ byte ∧ byte ≤ 57)

/-- `is_valid_identifier_head` from `identifiers.rs` (ASCII letter or `_`). -/
def is_valid_identifier_head (byte : Nat) : Bool :=
  (97 ≤ byte ∧ byte ≤ 122) ∨ (65 ≤ byte ∧ byte ≤ 90) ∨ byte = 95

/-- `const_index` from `identifiers.rs`. -/
def const_index (s : List Nat) (index : Nat) : Option Nat := s[index]?

/-- `const_subslice` from `identifiers.rs`. -/
def const_subslice (s : List Nat) (start stop : Nat) : Option (List Nat) :=
  if start > stop ∨ stop > s.length then none
  else some ((s.drop start).take (stop - start))

/-- `identifier_check_rest` from `identifiers.rs`. -/
def identifier_check_rest (s : List Nat) (start : Nat) (rest : List Nat)
    (token : Token) : Token :=
  match const_subslice s start s.length with
  | none => Token.LitIdentifier
  | some ss => if ss = rest then token else Token.LitIdentifier

/-- The keyword trie `check_identifier_actual_token` from `identifiers.rs`.
The original also stores the slice into `lexer.literal` when the result is
extractable; `lex_identifier` repeats that same assignment, and the net state
effect is modelled there. -/
def check_identifier_actual_token (s : List Nat) : Token :=
  match s.getD 0 0 with
  | 108 => identifier_check_rest s 1 [101, 116] Token.KwLet
  | 102 => identifier_check_rest s 1 [110] Token.KwFn
  | 114 =>
    match const_index s 1 with
    | none => Token.LitIdentifier
    | some next =>
      match next with
      | 101 => identifier_check_rest s 2 [116, 117, 114, 110] Token.KwReturn
      | 117 => identifier_check_rest s 2 [110, 116, 105, 109, 101] Token.KwRuntime
      | _ => Token.LitIdentifier
  | 101 =>
    match const_index s 1 with
    | none => Token.LitIdentifier
    | some next =>
      match next with
      | 120 => identifier_check_rest s 2 [116, 101, 114, 110] Token.KwExtern
      | 110 => identifier_check_rest s 2 [117, 109] Token.KwAdtEnum
      | _ => Token.LitIdentifier
  | 99 =>
    match const_index s 1 with
    | none => Token.LitIdentifier
    | some next =>
      match next with
      | 111 =>
        match const_index s 2 with
        | none => Token.LitIdentifier
        | some next2 =>
          match next2 with
          | 110 => identifier_check_rest s 3 [115, 116] Token.KwConst
          | 109 => identifier_check_rest s 3 [112, 105, 108, 101, 116, 105, 109, 101] Token.KwCompiletime
          | _ => Token.LitIdentifier
      | 97 => identifier_check_rest s 2 [115, 116] Token.KwCast
      | _ => Token.LitIdentifier
  | 109 => identifier_check_rest s 1 [117, 116] Token.KwMut
  | 97 => identifier_check_rest s 1 [110, 121, 109, 117, 116] Token.KwAnymut
  | 115 =>
    match const_index s 1 with
    | none => Token.LitIdentifier
    | some next =>
      match next with
      | 116 =>
        match const_index s 2 with
        | none => Token.LitIdentifier
        | some next2 =>
          match next2 with
          | 97 => identifier_check_rest s 3 [116, 105, 99] Token.KwStatic
          | 114 => identifier_check_rest s 3 [117, 99, 116] Token.KwAdtStruct
          | _ => Token.LitIdentifier
      | _ => Token.LitIdentifier
  | 116 => identifier_check_rest s 1 [121, 112, 101] Token.KwType
  | 117 =>
    match const_index s 1 with
    | none => Token.LitIdentifier
    | some next =>
      match next with
      | 110 =>
        match const_index s 2 with
        | none => Token.LitIdentifier
        | some next2 =>
          match next2 with
          | 105 =>
            match const_index s 3 with
            | none => Token.LitIdentifier
            | some next3 =>
              match next3 with
              | 110 => identifier_check_rest s 4 [105, 116] Token.LitUninit
              | 111 => identifier_check_rest s 4 [110] Token.KwAdtUnion
              | _ => Token.LitIdentifier
          | _ => Token.LitIdentifier
      | _ => Token.LitIdentifier
  | _ => Token.LitIdentifier

namespace Lexer

/-- Fuel-indexed body of the line-comment loop inside `skip_whitespace_impl`
(consume through, not including, the next newline). -/
def skipCommentBodyF : Nat → Lexer → Lexer
  | 0, l => l
  | fuel + 1, l =>
    if l.is_at_end then l
    else if l.byteAt ≠ 10 then skipCommentBodyF fuel l.advanceU
    else l

/-- The line-comment loop of `skip_whitespace_impl`. -/
def skipCommentBody (l : Lexer) : Lexer :=
  skipCommentBodyF (l.source.length - l.index) l

/-- Fuel-indexed body of `skip_whitespace_impl` from `skip_whitespace.rs`. -/
def skipWhitespaceF : Nat → Lexer → Lexer
  | 0, l => l
  | fuel + 1, l =>
    if l.is_at_end then l
    else if is_whitespace l.byteAt then skipWhitespaceF fuel l.advanceU
    else if l.byteAt = 47 then
      match l.peek_next with
      | some 47 => skipWhitespaceF fuel (l.advanceU.advanceU.skipCommentBody)
      | _ => l
    else l

/-- `skip_whitespace_impl` / `Lexer::skip_whitespace`. -/
def skip_whitespace (l : Lexer) : Lexer :=
  skipWhitespaceF (l.source.length - l.index) l

/-- Fuel-indexed identifier-tail loop of `lex_identifier`. -/
def identLoopF : Nat → Lexer → Lexer
  | 0, l => l
  | fuel + 1, l =>
    if l.is_at_end then l
    else if is_valid_identifier_tail l.byteAt then identLoopF fuel l.advanceU
    else l

/-- The identifier-tail loop of `lex_identifier`. -/
def identLoop (l : Lexer) : Lexer :=
  identLoopF (l.source.length - l.index) l

/-- `Lexer::lex_identifier` from `high_level.rs`: consume the identifier
tail, classify the span through the keyword trie, and stash the literal when
the result is extractable. -/
def lex_identifier (l : Lexer) : Token × Lexer :=
  let l1 := l.identLoop
  let slice := l1.slice_here
  let res := check_identifier_actual_token slice
  if res.is_identifier_extractable then (res, { l1 with literal := some slice })
  else (res, l1)

/-- Fuel-indexed resynchronization loop of `lex_quoted_string` (the scan to
the next unescaped closing quote after an invalid escape). -/
def strResyncF : Nat → Lexer → Except LexerError Unit × Lexer
  | 0, l => (Except.ok (), l)
  | fuel + 1, l =>
    if l.is_at_end then (Except.ok (), l)
    else
      let b := l.byteAt
      let l1 := l.advanceU
      if b = 34 then (Except.ok (), l1.backtrackU)
      else if b = 92 then
        if l1.is_at_end then
          (Except.error (LexerError.UnexpectedEofWhile Token.LitStr), l1)
        else strResyncF fuel l1.advanceU
      else strResyncF fuel l1

/-- The resynchronization loop of `lex_quoted_string`. -/
def strResync (l : Lexer) : Except LexerError Unit × Lexer :=
  strResyncF (l.source.length - l.index) l

/-- Fuel-indexed main scanning loop of `lex_quoted_string`. -/
def strLoopF : Nat → Lexer → Except LexerError Unit × Lexer
  | 0, l => (Except.ok (), l)
  | fuel + 1, l =>
    if l.is_at_end then (Except.ok (), l)
    else
      let b := l.byteAt
      let l1 := l.advanceU
      if b = 34 then (Except.ok (), l1.backtrackU)
      else if b = 92 then
        if l1.is_at_end then
          (Except.error (LexerError.UnexpectedEofWhile Token.LitStr), l1)
        else
          let esc := l1.byteAt
          let l2 := l1.advanceU
          if esc = 34 ∨ esc = 116 ∨ esc = 110 ∨ esc = 114 ∨ esc = 92 ∨ esc = 48 then
            strLoopF fuel l2
          else if esc = 120 then
            (Except.error (LexerError.WithMessage "byte escape sequences are not implemented yet"), l2)
          else
            if l2.is_at_end then
              (Except.error (LexerError.UnexpectedEofWhile Token.LitStr), l2)
            else
              match l2.strResync with
              | (Except.error e, l3) => (Except.error e, l3)
              | (Except.ok _, l3) =>
                if l3.is_at_end then
                  (Except.error (LexerError.UnexpectedEofWhile Token.LitStr), l3)
                else (Except.error LexerError.InvalidEscapeSequence, l3.advanceU)
      else strLoopF fuel l1

/-- The main scanning loop of `lex_quoted_string`. -/
def strLoop (l : Lexer) : Except LexerError Unit × Lexer :=
  strLoopF (l.source.length - l.index) l

/-- `Lexer::lex_quoted_string` from `high_level.rs` (entered with `start` at
the opening quote and `index` just past it). -/
def lex_quoted_string (l : Lexer) : Except LexerError Token × Lexer :=
  if l.is_at_end then (Except.error (LexerError.UnexpectedEofWhile Token.LitStr), l)
  else
    match l.strLoop with
    | (Except.error e, l1) => (Except.error e, l1)
    | (Except.ok _, l1) =>
      if l1.is_at_end then
        (Except.error (LexerError.UnexpectedEofWhile Token.LitStr), l1)
      else if l1.byteAt ≠ 34 then
        (Except.error LexerError.InvalidCharacter, l1.advanceU)
      else
        let l2 : Lexer := { l1 with start := l1.start + 1 }
        let slice := l2.slice_here
        (Except.ok Token.LitStr, { l2.advanceU with literal := some slice })

/-- Shared closing tail of `lex_character_literal` (the code after its
escape `match`): check the closing quote and produce the literal. -/
def charClose (l : Lexer) : Except LexerError Token × Lexer :=
  if l.is_at_end then (Except.error (LexerError.UnexpectedEofWhile Token.LitChar), l)
  else if l.byteAt ≠ 39 then (Except.error LexerError.InvalidCharacter, l.advanceU)
  else
    let l2 : Lexer := { l with start := l.start + 1 }
    let slice := l2.slice_here
    (Except.ok Token.LitChar, { l2.advanceU with literal := some slice })

/-- `Lexer::lex_character_literal` from `high_level.rs` (entered with `start`
at the opening quote and `index` just past it). -/
def lex_character_literal (l : Lexer) : Except LexerError Token × Lexer :=
  if l.is_at_end then (Except.error (LexerError.UnexpectedEofWhile Token.LitChar), l)
  else
    let b := l.byteAt
    if b = 92 then
      match l.peek_next with
      | none => (Except.error (LexerError.UnexpectedEofWhile Token.LitChar), l.advanceU)
      | some esc =>
        if esc = 39 ∨ esc = 116 ∨ esc = 110 ∨ esc = 114 ∨ esc = 92 ∨ esc = 48 then
          charClose l.advanceU.advanceU
        else if esc = 120 then
          (Except.error (LexerError.WithMessage "byte escape sequences are not implemented yet"), l)
        else
          let l2 := l.advanceU.advanceU
          if l2.is_at_end then
            (Except.error (LexerError.UnexpectedEofWhile Token.LitChar), l2)
          else
            let val := l2.byteAt
            let l3 := l2.advanceU
            if val ≠ 39 then (Except.error LexerError.UnclosedCharLiteral, l3)
            else (Except.error LexerError.InvalidEscapeSequence, l3)
    else charClose l.advanceU

/-- Fuel-indexed decimal-part loop of `lex_dot_after_integer`. -/
def digitLoopF : Nat → Lexer → Lexer
  | 0, l => l
  | fuel + 1, l =>
    if l.is_at_end then l
    else if is_valid_digit l.byteAt then digitLoopF fuel l.advanceU
    else l

/-- The decimal-part loop of `lex_dot_after_integer`. -/
def digitLoop (l : Lexer) : Lexer :=
  digitLoopF (l.source.length - l.index) l

/-- `lex_dot_after_integer` from `high_level.rs` (entered just past the
dot). -/
def lex_dot_after_integer (l : Lexer) : Except LexerError Token × Lexer :=
  if l.is_at_end then (Except.error (LexerError.UnexpectedEofWhile Token.LitFloat), l)
  else
    let peeked := l.byteAt
    if is_valid_digit peeked then
      let l2 := l.advanceU.digitLoop
      (Except.ok Token.LitFloat, { l2 with literal := some l2.slice_here })
    else if is_whitespace peeked then
      (Except.error (LexerError.WithMessage "lexer error at src/lexer/lexer_impls/high_level.rs"), l)
    else if is_valid_identifier_head peeked then
      (Except.error (LexerError.WithMessage "lexer error at src/lexer/lexer_impls/high_level.rs"), l)
    else (Except.error (LexerError.UnexpectedEofWhile Token.LitFloat), l)

/-- Fuel-indexed integer-digit loop of `lex_ambiguous_number_literal`. -/
def lexAmbiguousF : Nat → Lexer → Except LexerError Token × Lexer
  | 0, l => (Except.ok Token.LitInteger, { l with literal := some l.slice_here })
  | fuel + 1, l =>
    if l.is_at_end then
      (Except.ok Token.LitInteger, { l with literal := some l.slice_here })
    else
      let b := l.byteAt
      if is_valid_digit b then lexAmbiguousF fuel l.advanceU
      else if b = 46 then lex_dot_after_integer l.advanceU
      else (Except.ok Token.LitInteger, { l with literal := some l.slice_here })

/-- `Lexer::lex_ambiguous_number_literal` from `high_level.rs` (entered with
`start` at the first digit and `index` just past it). -/
def lex_ambiguous_number_literal (l : Lexer) : Except LexerError Token × Lexer :=
  lexAmbiguousF (l.source.length - l.index) l

/-- The dispatch-on-first-byte part of `Lexer::lex_single_token` from
`src/lexer.rs`: entered after whitespace skipping, the `Eof` check, and the
`start`/`literal` reset; it consumes the first byte and scans one token. -/
def lexDispatch (l1 : Lexer) : Except LexerError Token × Lexer :=
    let next := l1.byteAt
    let l2 := l1.advanceU
    if next = 46 then (Except.ok Token.PuncDot, l2)
    else if next = 44 then (Except.ok Token.PuncComma, l2)
    else if next = 59 then (Except.ok Token.PuncSemi, l2)
    else if next = 58 then (Except.ok Token.PuncColon, l2)
    else if next = 43 then
      match l2.peek with
      | some 61 => (Except.ok Token.PuncPlusEq, l2.advanceU)
      | _ => (Except.ok Token.PuncPlus, l2)
    else if next = 42 then
      match l2.peek with
      | some 61 => (Except.ok Token.PuncStarEq, l2.advanceU)
      | _ => (Except.ok Token.PuncStar, l2)
    else if next = 47 then
      match l2.peek with
      | some 61 => (Except.ok Token.PuncSlashEq, l2.advanceU)
      | _ => (Except.ok Token.PuncSlash, l2)
    else if next = 45 then
      match l2.peek with
      | some 62 => (Except.ok Token.PuncArrowRight, l2.advanceU)
      | some 61 => (Except.ok Token.PuncMinusEq, l2.advanceU)
      | _ => (Except.ok Token.PuncMinus, l2)
    else if next = 61 then
      match l2.peek with
      | some 61 => (Except.ok Token.PuncEqEq, l2.advanceU)
      | _ => (Except.ok Token.PuncEq, l2)
    else if next = 33 then
      match l2.peek with
      | some 61 => (Except.ok Token.PuncBangEq, l2.advanceU)
      | _ => (Except.ok Token.PuncBang, l2)
    else if next = 60 then
      match l2.peek with
      | some 61 => (Except.ok Token.PuncLtEq, l2.advanceU)
      | some 60 =>
        let l3 := l2.advanceU
        match l3.peek with
        | some 61 => (Except.ok Token.PuncShlEq, l3.advanceU)
        | _ => (Except.ok Token.PuncShl, l3)
      | _ => (Except.ok Token.PuncLt, l2)
    else if next = 62 then
      match l2.peek with
      | some 61 => (Except.ok Token.PuncGtEq, l2.advanceU)
      | some 62 =>
        let l3 := l2.advanceU
        match l3.peek with
        | some 61 => (Except.ok Token.PuncShrEq, l3.advanceU)
        | _ => (Except.ok Token.PuncShr, l3)
      | _ => (Except.ok Token.PuncGt, l2)
    else if next = 40 then (Except.ok Token.IndentLParen, l2)
    else if next = 41 then (Except.ok Token.IndentRParen, l2)
    else if next = 123 then (Except.ok Token.IndentLBrace, l2)
    else if next = 125 then (Except.ok Token.IndentRBrace, l2)
    else if next = 91 then (Except.ok Token.IndentLBracket, l2)
    else if next = 93 then (Except.ok Token.IndentRBracket, l2)
    else if next = 34 then lex_quoted_string l2
    else if next = 39 then lex_character_literal l2
    else if next = 37 then
      match l2.peek with
      | some 61 => (Except.ok Token.PuncModuloEq, l2.advanceU)
      | _ => (Except.ok Token.PuncModulo, l2)
    else if next = 38 then
      match l2.peek with
      | some 61 => (Except.ok Token.PuncAndEq, l2.advanceU)
      | _ => (Except.ok Token.PuncAnd, l2)
    else if next = 124 then
      match l2.peek with
      | some 61 => (Except.ok Token.PuncOrEq, l2.advanceU)
      | _ => (Except.ok Token.PuncOr, l2)
    else if next = 94 then
      match l2.peek with
      | some 61 => (Except.ok Token.PuncXorEq, l2.advanceU)
      | _ => (Except.ok Token.PuncXor, l2)
    else if is_valid_digit next then lex_ambiguous_number_literal l2
    else if is_valid_identifier_head next then
      let (t, l3) := lex_identifier l2
      (Except.ok t, l3)
    else (Except.error LexerError.InvalidCharacter, l2)

/-- `Lexer::lex_single_token` from `src/lexer.rs`: the top-level driver. -/
def lex_single_token (l : Lexer) : Except LexerError Token × Lexer :=
  let l0 := l.skip_whitespace
  if l0.is_at_end then (Except.error LexerError.Eof, l0)
  else lexDispatch { l0 with start := l0.index, literal := none }

/-- `Lexer::extract_literal`. -/
def extract_literal (l : Lexer) : Except LexerError (List Nat) × Lexer :=
  match l.literal with
  | some t => (Except.ok t, { l with literal := none })
  | none => (Except.error LexerError.NoLiteralToExtract, l)

/-- `Lexer::get_line_column`. -/
def get_line_column (l : Lexer) : Nat × Nat := (l.line, l.column)

/-- `Iterator::next` for `Lexer` (`lex_single_token().ok()`). -/
def iterNext (l : Lexer) : Option Token × Lexer :=
  match lex_single_token l with
  | (Except.ok t, l') => (some t, l')
  | (Except.error _, l') => (none, l')

end Lexer

/-- The lexer states reachable from `Lexer::new` by the public operations
`lex_single_token` and `extract_literal`. -/
inductive Reachable : Lexer → Prop where
  | new (source : List Nat) : Reachable (Lexer.new source)
  | lex {l : Lexer} : Reachable l → Reachable (Lexer.lex_single_token l).2
  | extract {l : Lexer} : Reachable l → Reachable (Lexer.extract_literal l).2

end Mumbo

/-! ## Basic cursor lemmas -/

namespace Mumbo

namespace Lexer

@[simp] theorem new_source (s : List Nat) : (Lexer.new s).source = s := rfl
@[simp] theorem new_start (s : List Nat) : (Lexer.new s).start = 0 := rfl
@[simp] theorem new_index (s : List Nat) : (Lexer.new s).index = 0 := rfl
@[simp] theorem new_literal (s : List Nat) : (Lexer.new s).literal = none := rfl
@[simp] theorem new_line (s : List Nat) : (Lexer.new s).line = 1 := rfl
@[simp] theorem new_column (s : List Nat) : (Lexer.new s).column = 0 := rfl

@[simp] theorem advanceU_source (l : Lexer) : l.advanceU.source = l.source := by
  unfold advanceU; split <;> rfl

@[simp] theorem advanceU_index (l : Lexer) : l.advanceU.index = l.index + 1 := by
  unfold advanceU; split <;> rfl

@[simp] theorem advanceU_start (l : Lexer) : l.advanceU.start = l.start := by
  unfold advanceU; split <;> rfl

@[simp] theorem advanceU_literal (l : Lexer) : l.advanceU.literal = l.literal := by
  unfold advanceU; split <;> rfl

theorem advanceU_line_ge (l : Lexer) : l.line ≤ l.advanceU.line := by
  unfold advanceU; split <;> simp

@[simp] theorem advanceU_column_pos (l : Lexer) : 1 ≤ l.advanceU.column := by
  unfold advanceU; split <;> simp

@[simp] theorem backtrackU_source (l : Lexer) : l.backtrackU.source = l.source := by
  unfold backtrackU; split <;> rfl

@[simp] theorem backtrackU_index (l : Lexer) : l.backtrackU.index = l.index - 1 := by
  unfold backtrackU; split <;> rfl

@[simp] theorem backtrackU_start (l : Lexer) : l.backtrackU.start = l.start := by
  unfold backtrackU; split <;> rfl

@[simp] theorem backtrackU_literal (l : Lexer) : l.backtrackU.literal = l.literal := by
  unfold backtrackU; split <;> rfl

theorem backtrackU_of_ne (l : Lexer) (h : l.source.getD (l.index - 1) 0 ≠ 10) :
    l.backtrackU = { l with index := l.index - 1 } := by
  unfold backtrackU; rw [if_neg h]

theorem is_at_end_iff (l : Lexer) : l.is_at_end = true ↔ l.source.length ≤ l.index := by
  simp [is_at_end]

theorem is_at_end_false_iff (l : Lexer) :
    l.is_at_end = false ↔ l.index < l.source.length := by
  simp [is_at_end]

theorem lt_of_peek_eq_some {l : Lexer} {b : Nat} (h : l.peek = some b) :
    l.index < l.source.length := by
  by_contra hc
  rw [peek, List.getElem?_eq_none (by omega)] at h
  exact Option.noConfusion h

theorem byteAt_of_peek_eq_some {l : Lexer} {b : Nat} (h : l.peek = some b) :
    l.byteAt = b := by
  rw [peek] at h
  rw [byteAt, List.getD_eq_getElem?_getD, h]
  rfl

theorem lt_of_peek_next_eq_some {l : Lexer} {b : Nat} (h : l.peek_next = some b) :
    l.index + 1 < l.source.length := by
  by_contra hc
  rw [peek_next, List.getElem?_eq_none (by omega)] at h
  exact Option.noConfusion h

/-- Well-formedness of a lexer state: the cursor invariant
`start ≤ index ≤ len(source)`, a 1-based line counter, and a positive column
once at least one byte has been consumed. -/
def Wf (l : Lexer) : Prop :=
  l.start ≤ l.index ∧ l.index ≤ l.source.length ∧ 1 ≤ l.line ∧
    (0 < l.index → 1 ≤ l.column)

theorem Wf.advanceU_wf {l : Lexer} (h : Wf l) (hlt : l.index < l.source.length) :
    Wf l.advanceU := by
  obtain ⟨h1, h2, h3, h4⟩ := h
  refine ⟨by simp; omega, by simp; omega, ?_, by simp⟩
  exact le_trans h3 (advanceU_line_ge l)


/-! ## Frame lemmas: facts preserved by every cursor-advancing loop -/

/-- Relation between a state and any state a sub-scan can produce from it:
source, token start and pending literal are untouched, the index moves only
forward and stays in bounds, and the line/column facts are maintained. -/
def Frame (l l' : Lexer) : Prop :=
  l'.source = l.source ∧ l'.start = l.start ∧ l'.literal = l.literal ∧
    l.index ≤ l'.index ∧ (l.index ≤ l.source.length → l'.index ≤ l.source.length) ∧
    l.line ≤ l'.line ∧
    ((0 < l.index → 1 ≤ l.column) → (0 < l'.index → 1 ≤ l'.column))

theorem Frame.refl (l : Lexer) : Frame l l :=
  ⟨rfl, rfl, rfl, le_rfl, fun h => h, le_rfl, fun h => h⟩

theorem Frame.trans {a b c : Lexer} (h1 : Frame a b) (h2 : Frame b c) : Frame a c := by
  obtain ⟨s1, t1, l1, i1, b1, n1, c1⟩ := h1
  obtain ⟨s2, t2, l2, i2, b2, n2, c2⟩ := h2
  refine ⟨s2.trans s1, t2.trans t1, l2.trans l1, i1.trans i2, ?_, n1.trans n2, ?_⟩
  · intro h; rw [s1] at b2; exact b2 (b1 h)
  · intro h; exact c2 (c1 h)

theorem frame_advanceU {l : Lexer} (h : l.index < l.source.length) :
    Frame l l.advanceU := by
  refine ⟨by simp, by simp, by simp, by simp, by simp; omega, l.advanceU_line_ge, ?_⟩
  intro _ _; simp

theorem frame_adv_back {l : Lexer} (h10 : l.byteAt ≠ 10) :
    l.advanceU.backtrackU = { l with column := l.column + 1 } := by
  have ha : l.advanceU = { l with index := l.index + 1, column := l.column + 1 } := by
    unfold Lexer.advanceU; rw [if_neg h10]
  rw [ha, Lexer.backtrackU_of_ne]
  simp [Lexer.byteAt] at h10 ⊢
  exact h10

theorem frame_adv_back_frame {l : Lexer} (h10 : l.byteAt ≠ 10) :
    Frame l l.advanceU.backtrackU := by
  rw [frame_adv_back h10]
  exact ⟨rfl, rfl, rfl, le_rfl, fun h => h, le_rfl, fun _ _ => by simp⟩

theorem index_lt_of_not_end {l : Lexer} (h : l.is_at_end = false) :
    l.index < l.source.length := (Lexer.is_at_end_false_iff l).mp h

theorem len_le_of_end {l : Lexer} (h : l.is_at_end = true) :
    l.source.length ≤ l.index := (Lexer.is_at_end_iff l).mp h

theorem skipCommentBodyF_frame : ∀ fuel l, Frame l (Lexer.skipCommentBodyF fuel l) := by
  intro fuel
  induction fuel with
  | zero => intro l; exact Frame.refl l
  | succ g ih =>
    intro l
    unfold Lexer.skipCommentBodyF
    by_cases hend : l.is_at_end = true
    · rw [if_pos hend]; exact Frame.refl l
    · have hend' : l.is_at_end = false := by simpa using hend
      rw [if_neg hend]
      by_cases hb : l.byteAt ≠ 10
      · rw [if_pos hb]
        exact (frame_advanceU (index_lt_of_not_end hend')).trans (ih _)
      · rw [if_neg hb]; exact Frame.refl l

theorem skipCommentBody_frame (l : Lexer) : Frame l l.skipCommentBody :=
  skipCommentBodyF_frame _ l

theorem skipWhitespaceF_frame : ∀ fuel l, Frame l (Lexer.skipWhitespaceF fuel l) := by
  intro fuel
  induction fuel with
  | zero => intro l; exact Frame.refl l
  | succ g ih =>
    intro l
    unfold Lexer.skipWhitespaceF
    by_cases hend : l.is_at_end = true
    · rw [if_pos hend]; exact Frame.refl l
    · have hend' : l.is_at_end = false := by simpa using hend
      rw [if_neg hend]
      have hlt := index_lt_of_not_end hend'
      by_cases hws : is_whitespace l.byteAt = true
      · rw [if_pos hws]
        exact (frame_advanceU hlt).trans (ih _)
      · rw [if_neg hws]
        by_cases h47 : l.byteAt = 47
        · rw [if_pos h47]
          split
          · next hpn =>
            have hlt2 : l.advanceU.index < l.advanceU.source.length := by
              simpa using Lexer.lt_of_peek_next_eq_some hpn
            refine ((frame_advanceU hlt).trans ?_).trans (ih _)
            exact (frame_advanceU hlt2).trans (skipCommentBody_frame _)
          · exact Frame.refl l
        · rw [if_neg h47]; exact Frame.refl l

theorem skip_whitespace_frame (l : Lexer) : Frame l l.skip_whitespace :=
  skipWhitespaceF_frame _ l

theorem identLoopF_frame : ∀ fuel l, Frame l (identLoopF fuel l) := by
  intro fuel
  induction fuel with
  | zero => intro l; exact Frame.refl l
  | succ g ih =>
    intro l
    unfold identLoopF
    by_cases hend : l.is_at_end = true
    · rw [if_pos hend]; exact Frame.refl l
    · have hend' : l.is_at_end = false := by simpa using hend
      rw [if_neg hend]
      by_cases hb : is_valid_identifier_tail l.byteAt = true
      · rw [if_pos hb]
        exact (frame_advanceU (index_lt_of_not_end hend')).trans (ih _)
      · rw [if_neg hb]; exact Frame.refl l

theorem identLoop_frame (l : Lexer) : Frame l l.identLoop :=
  identLoopF_frame _ l

theorem digitLoopF_frame : ∀ fuel l, Frame l (digitLoopF fuel l) := by
  intro fuel
  induction fuel with
  | zero => intro l; exact Frame.refl l
  | succ g ih =>
    intro l
    unfold digitLoopF
    by_cases hend : l.is_at_end = true
    · rw [if_pos hend]; exact Frame.refl l
    · have hend' : l.is_at_end = false := by simpa using hend
      rw [if_neg hend]
      by_cases hb : is_valid_digit l.byteAt = true
      · rw [if_pos hb]
        exact (frame_advanceU (index_lt_of_not_end hend')).trans (ih _)
      · rw [if_neg hb]; exact Frame.refl l

theorem digitLoop_frame (l : Lexer) : Frame l l.digitLoop :=
  digitLoopF_frame _ l

theorem strResyncF_frame : ∀ fuel l, Frame l (strResyncF fuel l).2 := by
  intro fuel
  induction fuel with
  | zero => intro l; exact Frame.refl l
  | succ g ih =>
    intro l
    unfold strResyncF
    by_cases hend : l.is_at_end = true
    · rw [if_pos hend]; exact Frame.refl l
    · have hend' : l.is_at_end = false := by simpa using hend
      have hlt := index_lt_of_not_end hend'
      rw [if_neg hend]
      dsimp only
      by_cases h34 : l.byteAt = 34
      · rw [if_pos h34]
        exact frame_adv_back_frame (by rw [h34]; decide)
      · rw [if_neg h34]
        by_cases h92 : l.byteAt = 92
        · rw [if_pos h92]
          by_cases hend1 : l.advanceU.is_at_end = true
          · rw [if_pos hend1]; exact frame_advanceU hlt
          · have hend1' : l.advanceU.is_at_end = false := by simpa using hend1
            have hlt1 := index_lt_of_not_end hend1'
            rw [if_neg hend1]
            exact ((frame_advanceU hlt).trans (frame_advanceU hlt1)).trans (ih _)
        · rw [if_neg h92]
          exact (frame_advanceU hlt).trans (ih _)

theorem strResync_frame (l : Lexer) : Frame l l.strResync.2 :=
  strResyncF_frame _ l

theorem strResyncF_err : ∀ fuel l (e : LexerError),
    (strResyncF fuel l).1 = Except.error e →
    e = LexerError.UnexpectedEofWhile Token.LitStr := by
  intro fuel
  induction fuel with
  | zero => intro l e h; exact absurd h (by simp [strResyncF])
  | succ g ih =>
    intro l e h
    unfold strResyncF at h
    by_cases hend : l.is_at_end = true
    · rw [if_pos hend] at h; exact absurd h (by simp)
    · rw [if_neg hend] at h
      dsimp only at h
      by_cases h34 : l.byteAt = 34
      · rw [if_pos h34] at h; exact absurd h (by simp)
      · rw [if_neg h34] at h
        by_cases h92 : l.byteAt = 92
        · rw [if_pos h92] at h
          by_cases hend1 : l.advanceU.is_at_end = true
          · rw [if_pos hend1] at h
            simpa using h.symm
          · rw [if_neg hend1] at h
            exact ih _ _ h
        · rw [if_neg h92] at h
          exact ih _ _ h

theorem strResync_err (l : Lexer) (e : LexerError)
    (h : l.strResync.1 = Except.error e) :
    e = LexerError.UnexpectedEofWhile Token.LitStr :=
  strResyncF_err _ l e h
theorem strLoopF_frame : ∀ fuel l, Frame l (strLoopF fuel l).2 := by
  intro fuel
  induction fuel with
  | zero => intro l; exact Frame.refl l
  | succ g ih =>
    intro l
    unfold strLoopF
    by_cases hend : l.is_at_end = true
    · rw [if_pos hend]; exact Frame.refl l
    · have hend' : l.is_at_end = false := by simpa using hend
      have hlt := index_lt_of_not_end hend'
      rw [if_neg hend]
      dsimp only
      by_cases h34 : l.byteAt = 34
      · rw [if_pos h34]
        exact frame_adv_back_frame (by rw [h34]; decide)
      · rw [if_neg h34]
        by_cases h92 : l.byteAt = 92
        · rw [if_pos h92]
          by_cases hend1 : l.advanceU.is_at_end = true
          · rw [if_pos hend1]; exact frame_advanceU hlt
          · have hend1' : l.advanceU.is_at_end = false := by simpa using hend1
            have hlt1 := index_lt_of_not_end hend1'
            have fr2 : Frame l l.advanceU.advanceU :=
              (frame_advanceU hlt).trans (frame_advanceU hlt1)
            rw [if_neg hend1]
            by_cases hesc : (l.advanceU.byteAt = 34 ∨ l.advanceU.byteAt = 116 ∨
                l.advanceU.byteAt = 110 ∨ l.advanceU.byteAt = 114 ∨
                l.advanceU.byteAt = 92 ∨ l.advanceU.byteAt = 48)
            · rw [if_pos hesc]
              exact fr2.trans (ih _)
            · rw [if_neg hesc]
              by_cases hx : l.advanceU.byteAt = 120
              · rw [if_pos hx]; exact fr2
              · rw [if_neg hx]
                by_cases hend2 : (l.advanceU.advanceU).is_at_end = true
                · rw [if_pos hend2]; exact fr2
                · have hend2' : (l.advanceU.advanceU).is_at_end = false := by
                    simpa using hend2
                  rw [if_neg hend2]
                  rcases hres : (l.advanceU.advanceU).strResync with ⟨r, l3⟩
                  have fr3 : Frame l l3 := by
                    have := strResync_frame (l.advanceU.advanceU)
                    rw [hres] at this
                    exact fr2.trans this
                  cases r with
                  | error e => exact fr3
                  | ok u =>
                    dsimp only
                    by_cases hend3 : l3.is_at_end = true
                    · rw [if_pos hend3]; exact fr3
                    · have hend3' : l3.is_at_end = false := by simpa using hend3
                      rw [if_neg hend3]
                      exact fr3.trans (frame_advanceU (index_lt_of_not_end hend3'))
        · rw [if_neg h92]
          exact (frame_advanceU hlt).trans (ih _)

theorem strLoop_frame (l : Lexer) : Frame l l.strLoop.2 :=
  strLoopF_frame _ l

theorem strLoopF_err : ∀ fuel l (e : LexerError),
    (strLoopF fuel l).1 = Except.error e →
    e = LexerError.UnexpectedEofWhile Token.LitStr ∨
      e = LexerError.WithMessage "byte escape sequences are not implemented yet" ∨
      e = LexerError.InvalidEscapeSequence := by
  intro fuel
  induction fuel with
  | zero => intro l e h; exact absurd h (by simp [strLoopF])
  | succ g ih =>
    intro l e h
    unfold strLoopF at h
    by_cases hend : l.is_at_end = true
    · rw [if_pos hend] at h; exact absurd h (by simp)
    · rw [if_neg hend] at h
      dsimp only at h
      by_cases h34 : l.byteAt = 34
      · rw [if_pos h34] at h; exact absurd h (by simp)
      · rw [if_neg h34] at h
        by_cases h92 : l.byteAt = 92
        · rw [if_pos h92] at h
          by_cases hend1 : l.advanceU.is_at_end = true
          · rw [if_pos hend1] at h
            exact Or.inl (by simpa using h.symm)
          · rw [if_neg hend1] at h
            by_cases hesc : (l.advanceU.byteAt = 34 ∨ l.advanceU.byteAt = 116 ∨
                l.advanceU.byteAt = 110 ∨ l.advanceU.byteAt = 114 ∨
                l.advanceU.byteAt = 92 ∨ l.advanceU.byteAt = 48)
            · rw [if_pos hesc] at h
              exact ih _ _ h
            · rw [if_neg hesc] at h
              by_cases hx : l.advanceU.byteAt = 120
              · rw [if_pos hx] at h
                exact Or.inr (Or.inl (by simpa using h.symm))
              · rw [if_neg hx] at h
                by_cases hend2 : (l.advanceU.advanceU).is_at_end = true
                · rw [if_pos hend2] at h
                  exact Or.inl (by simpa using h.symm)
                · rw [if_neg hend2] at h
                  rcases hres : (l.advanceU.advanceU).strResync with ⟨r, l3⟩
                  rw [hres] at h
                  cases r with
                  | error e2 =>
                    have he2 : e2 = LexerError.UnexpectedEofWhile Token.LitStr := by
                      apply strResync_err (l.advanceU.advanceU)
                      rw [hres]
                    simp at h
                    subst h
                    exact Or.inl he2
                  | ok u =>
                    by_cases hend3 : l3.is_at_end = true
                    · simp [hend3] at h
                      subst h
                      decide
                    · simp [hend3] at h
                      subst h
                      decide
        · rw [if_neg h92] at h
          exact ih _ _ h

theorem strLoop_err (l : Lexer) (e : LexerError) (h : l.strLoop.1 = Except.error e) :
    e = LexerError.UnexpectedEofWhile Token.LitStr ∨
      e = LexerError.WithMessage "byte escape sequences are not implemented yet" ∨
      e = LexerError.InvalidEscapeSequence :=
  strLoopF_err _ l e h

/-! ## Sub-lexer specifications -/

/-- Precondition on the state a sub-lexer is entered with: `start` sits on the
introducing byte, `index` just past it, counters are live, no stale literal. -/
def SubPre (l : Lexer) : Prop :=
  l.start < l.index ∧ l.index ≤ l.source.length ∧ 1 ≤ l.line ∧ 1 ≤ l.column ∧
    l.literal = none

/-- What every sub-lexer guarantees: same source, forward motion, a
well-formed result state, the literal slot filled exactly for extractable
tokens, and errors that are never `Eof` and leave no literal. -/
def SubPost (l : Lexer) (p : Except LexerError Token × Lexer) : Prop :=
  p.2.source = l.source ∧ l.index ≤ p.2.index ∧ Wf p.2 ∧
    (∀ t, p.1 = Except.ok t →
      (t.is_identifier_extractable = true ↔ p.2.literal.isSome = true)) ∧
    (∀ e, p.1 = Except.error e → e ≠ LexerError.Eof ∧ p.2.literal = none)

theorem SubPost.mono {l l' : Lexer} {p : Except LexerError Token × Lexer}
    (h : SubPost l' p) (hidx : l.index ≤ l'.index) (hsrc : l'.source = l.source) :
    SubPost l p := by
  obtain ⟨h1, h2, h3, h4, h5⟩ := h
  exact ⟨h1.trans hsrc, hidx.trans h2, h3, h4, h5⟩

theorem wf_of_subpre {l : Lexer} (h : SubPre l) : Wf l :=
  ⟨le_of_lt h.1, h.2.1, h.2.2.1, fun _ => h.2.2.2.1⟩

theorem subpre_advanceU {l : Lexer} (h : SubPre l) (hlt : l.index < l.source.length) :
    SubPre l.advanceU := by
  obtain ⟨h1, h2, h3, h4, h5⟩ := h
  refine ⟨by simp; omega, by simp; omega, ?_, by simp, by simp [h5]⟩
  exact h3.trans l.advanceU_line_ge

theorem err_state_post {l s : Lexer} {e : LexerError}
    (hsrc : s.source = l.source) (hidx : l.index ≤ s.index) (hwf : Wf s)
    (hne : e ≠ LexerError.Eof) (hlit : s.literal = none) :
    SubPost l (Except.error e, s) := by
  refine ⟨hsrc, hidx, hwf, by simp, ?_⟩
  intro e' he'
  simp at he'
  subst he'
  exact ⟨hne, hlit⟩

theorem lit_state_post {l s : Lexer} {t : Token}
    (hsrc : s.source = l.source) (hidx : l.index ≤ s.index) (hwf : Wf s)
    (hext : t.is_identifier_extractable = true) (hlit : s.literal.isSome = true) :
    SubPost l (Except.ok t, s) := by
  refine ⟨hsrc, hidx, hwf, ?_, by simp⟩
  intro t' ht'
  simp at ht'
  subst ht'
  simp [hext, hlit]

theorem wf_finish_lit {l1 : Lexer} (hw : Wf l1) (hlt : l1.index < l1.source.length)
    (slice : List Nat) :
    Wf { ({ l1 with start := l1.start + 1 } : Lexer).advanceU with
          literal := some slice } := by
  obtain ⟨w1, w2, w3, w4⟩ := hw
  refine ⟨?_, ?_, ?_, fun _ => ?_⟩
  · simp
    omega
  · simp
    omega
  · exact le_trans w3 (advanceU_line_ge ({ l1 with start := l1.start + 1 } : Lexer))
  · exact advanceU_column_pos ({ l1 with start := l1.start + 1 } : Lexer)

theorem lex_quoted_string_spec (l : Lexer) (h : SubPre l) :
    SubPost l (lex_quoted_string l) := by
  obtain ⟨h1, h2, h3, h4, h5⟩ := h
  unfold lex_quoted_string
  by_cases hend : l.is_at_end = true
  · rw [if_pos hend]
    exact err_state_post rfl le_rfl ⟨le_of_lt h1, h2, h3, fun _ => h4⟩ (by decide) h5
  · rw [if_neg hend]
    split
    · rename_i e l1 hsl
      have fr : Frame l l1 := by
        have := strLoop_frame l
        rw [hsl] at this
        exact this
      obtain ⟨fs, ft, fl, fi, fb, fn, fc⟩ := fr
      have hwf1 : Wf l1 := by
        refine ⟨?_, by rw [fs]; exact fb h2, h3.trans fn, fun _ => fc (fun _ => h4) ?_⟩
        · rw [ft]; omega
        · omega
      have he := strLoop_err l e (by rw [hsl])
      refine err_state_post fs fi hwf1 ?_ (by rw [fl]; exact h5)
      rcases he with he | he | he <;> subst he <;> decide
    · rename_i u l1 hsl
      have fr : Frame l l1 := by
        have := strLoop_frame l
        rw [hsl] at this
        exact this
      obtain ⟨fs, ft, fl, fi, fb, fn, fc⟩ := fr
      have hwf1 : Wf l1 := by
        refine ⟨?_, by rw [fs]; exact fb h2, h3.trans fn, fun _ => fc (fun _ => h4) ?_⟩
        · rw [ft]; omega
        · omega
      by_cases hend1 : l1.is_at_end = true
      · rw [if_pos hend1]
        exact err_state_post fs fi hwf1 (by decide) (by rw [fl]; exact h5)
      · have hend1' : l1.is_at_end = false := by simpa using hend1
        have hlt1 : l1.index < l1.source.length := index_lt_of_not_end hend1'
        rw [if_neg hend1]
        by_cases hq : l1.byteAt ≠ 34
        · rw [if_pos hq]
          refine err_state_post (by simp [fs]) (by simp <;> omega) ?_ (by decide)
            (by simp [fl, h5])
          exact Wf.advanceU_wf hwf1 hlt1
        · rw [if_neg hq]
          dsimp only
          refine lit_state_post (by simp [fs]) (by simp <;> omega) ?_ (by decide)
            (by simp)
          exact wf_finish_lit hwf1 hlt1 _

theorem charClose_spec (l : Lexer) (h : SubPre l) : SubPost l (charClose l) := by
  obtain ⟨h1, h2, h3, h4, h5⟩ := h
  have hwf : Wf l := ⟨le_of_lt h1, h2, h3, fun _ => h4⟩
  unfold charClose
  by_cases hend : l.is_at_end = true
  · rw [if_pos hend]
    exact err_state_post rfl le_rfl hwf (by decide) h5
  · have hend' : l.is_at_end = false := by simpa using hend
    have hlt : l.index < l.source.length := index_lt_of_not_end hend'
    rw [if_neg hend]
    by_cases hq : l.byteAt ≠ 39
    · rw [if_pos hq]
      refine err_state_post (by simp) (by simp <;> omega) ?_ (by decide) (by simp [h5])
      exact Wf.advanceU_wf hwf hlt
    · rw [if_neg hq]
      dsimp only
      refine lit_state_post (by simp) (by simp <;> omega) ?_ (by decide) (by simp)
      exact wf_finish_lit hwf hlt _

theorem lex_character_literal_spec (l : Lexer) (h : SubPre l) :
    SubPost l (lex_character_literal l) := by
  have hpre := h
  obtain ⟨h1, h2, h3, h4, h5⟩ := h
  have hwf : Wf l := ⟨le_of_lt h1, h2, h3, fun _ => h4⟩
  unfold lex_character_literal
  by_cases hend : l.is_at_end = true
  · rw [if_pos hend]
    exact err_state_post rfl le_rfl hwf (by decide) h5
  · have hend' : l.is_at_end = false := by simpa using hend
    have hlt : l.index < l.source.length := index_lt_of_not_end hend'
    rw [if_neg hend]
    dsimp only
    by_cases h92 : l.byteAt = 92
    · rw [if_pos h92]
      split
      · exact err_state_post (by simp) (by simp <;> omega) (Wf.advanceU_wf hwf hlt)
          (by decide) (by simp [h5])
      · rename_i esc hpn
        have hlt2 : l.index + 1 < l.source.length := lt_of_peek_next_eq_some hpn
        have hpre2 : SubPre l.advanceU.advanceU := by
          refine subpre_advanceU (subpre_advanceU hpre hlt) ?_
          simpa using hlt2
        by_cases hesc : (esc = 39 ∨ esc = 116 ∨ esc = 110 ∨ esc = 114 ∨
            esc = 92 ∨ esc = 48)
        · rw [if_pos hesc]
          exact (charClose_spec _ hpre2).mono (by simp <;> omega) (by simp)
        · rw [if_neg hesc]
          by_cases hx : esc = 120
          · rw [if_pos hx]
            exact err_state_post rfl le_rfl hwf (by decide) h5
          · rw [if_neg hx]
            by_cases hend2 : l.advanceU.advanceU.is_at_end = true
            · rw [if_pos hend2]
              exact err_state_post (by simp) (by simp <;> omega)
                (wf_of_subpre hpre2) (by decide) (by simp [h5])
            · have hend2' : l.advanceU.advanceU.is_at_end = false := by
                simpa using hend2
              have hlt3 := index_lt_of_not_end hend2'
              rw [if_neg hend2]
              have hwf3 : Wf l.advanceU.advanceU.advanceU :=
                Wf.advanceU_wf (wf_of_subpre hpre2) hlt3
              by_cases hv : l.advanceU.advanceU.byteAt ≠ 39
              · rw [if_pos hv]
                exact err_state_post (by simp) (by simp <;> omega) hwf3 (by decide)
                  (by simp [h5])
              · rw [if_neg hv]
                exact err_state_post (by simp) (by simp <;> omega) hwf3 (by decide)
                  (by simp [h5])
    · rw [if_neg h92]
      exact (charClose_spec _ (subpre_advanceU hpre hlt)).mono (by simp) (by simp)

theorem wf_set_literal {l : Lexer} (hw : Wf l) (s : Option (List Nat)) :
    Wf { l with literal := s } := hw

theorem lex_dot_after_integer_spec (l : Lexer) (h : SubPre l) :
    SubPost l (lex_dot_after_integer l) := by
  have hpre := h
  obtain ⟨h1, h2, h3, h4, h5⟩ := h
  have hwf : Wf l := ⟨le_of_lt h1, h2, h3, fun _ => h4⟩
  unfold lex_dot_after_integer
  by_cases hend : l.is_at_end = true
  · rw [if_pos hend]
    exact err_state_post rfl le_rfl hwf (by decide) h5
  · have hend' : l.is_at_end = false := by simpa using hend
    have hlt : l.index < l.source.length := index_lt_of_not_end hend'
    rw [if_neg hend]
    by_cases hd : is_valid_digit l.byteAt = true
    · rw [if_pos hd]
      dsimp only
      obtain ⟨fs, ft, fl, fi, fb, fn, fc⟩ := digitLoop_frame l.advanceU
      have hidx : l.index + 1 ≤ l.advanceU.digitLoop.index := by simpa using fi
      have hbnd : l.advanceU.digitLoop.index ≤ l.source.length := by
        have hb2 : l.advanceU.index ≤ l.advanceU.source.length := by simp; omega
        have := fb hb2
        simpa using this
      have hline : 1 ≤ l.advanceU.digitLoop.line :=
        (h3.trans (advanceU_line_ge l)).trans fn
      have hcol : 1 ≤ l.advanceU.digitLoop.column := by
        refine fc (fun _ => by simp) ?_
        omega
      have hstart : l.advanceU.digitLoop.start = l.start := by simp [ft]
      have hsrc : l.advanceU.digitLoop.source = l.source := by simp [fs]
      refine lit_state_post (by simpa using hsrc) (by simp <;> omega) ?_
        (by decide) (by simp)
      refine ⟨?_, ?_, hline, fun _ => hcol⟩
      · simp [hstart]
        omega
      · simp [hsrc]
        omega
    · rw [if_neg hd]
      by_cases hws : is_whitespace l.byteAt = true
      · rw [if_pos hws]
        exact err_state_post rfl le_rfl hwf (by decide) h5
      · rw [if_neg hws]
        by_cases hih : is_valid_identifier_head l.byteAt = true
        · rw [if_pos hih]
          exact err_state_post rfl le_rfl hwf (by decide) h5
        · rw [if_neg hih]
          exact err_state_post rfl le_rfl hwf (by decide) h5

theorem lexAmbiguousF_spec : ∀ fuel l, SubPre l → SubPost l (lexAmbiguousF fuel l) := by
  intro fuel
  induction fuel with
  | zero =>
    intro l h
    exact lit_state_post rfl le_rfl (wf_of_subpre h : Wf l) (by decide) rfl
  | succ g ih =>
    intro l h
    have hpre := h
    unfold lexAmbiguousF
    by_cases hend : l.is_at_end = true
    · rw [if_pos hend]
      exact lit_state_post rfl le_rfl (wf_of_subpre hpre : Wf l) (by decide) rfl
    · have hend' : l.is_at_end = false := by simpa using hend
      have hlt : l.index < l.source.length := index_lt_of_not_end hend'
      rw [if_neg hend]
      dsimp only
      by_cases hd : is_valid_digit l.byteAt = true
      · rw [if_pos hd]
        exact (ih _ (subpre_advanceU hpre hlt)).mono (by simp) (by simp)
      · rw [if_neg hd]
        by_cases h46 : l.byteAt = 46
        · rw [if_pos h46]
          exact (lex_dot_after_integer_spec _ (subpre_advanceU hpre hlt)).mono
            (by simp) (by simp)
        · rw [if_neg h46]
          exact lit_state_post rfl le_rfl (wf_of_subpre hpre : Wf l) (by decide) rfl

theorem lex_ambiguous_number_literal_spec (l : Lexer) (h : SubPre l) :
    SubPost l (lex_ambiguous_number_literal l) :=
  lexAmbiguousF_spec _ l h

theorem lex_identifier_spec (l : Lexer) (h : SubPre l) :
    (lex_identifier l).2.source = l.source ∧ l.index ≤ (lex_identifier l).2.index ∧
    Wf (lex_identifier l).2 ∧
    ((lex_identifier l).1.is_identifier_extractable = true ↔
      (lex_identifier l).2.literal.isSome = true) := by
  obtain ⟨h1, h2, h3, h4, h5⟩ := h
  unfold lex_identifier
  dsimp only
  obtain ⟨fs, ft, fl, fi, fb, fn, fc⟩ := identLoop_frame l
  have hwf1 : Wf l.identLoop := by
    refine ⟨by rw [ft]; omega, by rw [fs]; exact fb h2, h3.trans fn, ?_⟩
    intro _
    exact fc (fun _ => h4) (by omega)
  by_cases hext :
      (check_identifier_actual_token l.identLoop.slice_here).is_identifier_extractable = true
  · rw [if_pos hext]
    exact ⟨fs, fi, hwf1, by simp [hext]⟩
  · rw [if_neg hext]
    have hext' :
        (check_identifier_actual_token l.identLoop.slice_here).is_identifier_extractable
          = false := by simpa using hext
    exact ⟨fs, fi, hwf1, by simp [hext', fl, h5]⟩

/-! ## Driver specification -/

theorem ok_plain_post {l s : Lexer} {t : Token}
    (hsrc : s.source = l.source) (hidx : l.index ≤ s.index) (hwf : Wf s)
    (hext : t.is_identifier_extractable = false) (hlit : s.literal = none) :
    SubPost l (Except.ok t, s) := by
  refine ⟨hsrc, hidx, hwf, ?_, by simp⟩
  intro t' ht'
  simp at ht'
  subst ht'
  simp [hext, hlit]

set_option maxHeartbeats 2000000 in
theorem dispatch_post (d : Lexer) (hst : d.start = d.index)
    (hlt : d.index < d.source.length) (hline : 1 ≤ d.line)
    (hlit : d.literal = none) :
    SubPost d (lexDispatch d) := by
  have hpre2 : SubPre d.advanceU := by
    refine ⟨by simp [hst], by simp <;> omega, hline.trans (advanceU_line_ge d),
      by simp, by simp [hlit]⟩
  have hwf2 : Wf d.advanceU := wf_of_subpre hpre2
  have okA : ∀ t : Token, t.is_identifier_extractable = false →
      SubPost d (Except.ok t, d.advanceU) := by
    intro t hext
    exact ok_plain_post (by simp) (by simp <;> omega) hwf2 hext (by simp [hlit])
  have okB : ∀ b : Nat, d.advanceU.peek = some b → ∀ t : Token,
      t.is_identifier_extractable = false →
      SubPost d (Except.ok t, d.advanceU.advanceU) := by
    intro b hpk t hext
    have hlt2 := lt_of_peek_eq_some hpk
    exact ok_plain_post (by simp) (by simp <;> omega) (hwf2.advanceU_wf hlt2)
      hext (by simp [hlit])
  have okC : ∀ b : Nat, d.advanceU.peek = some b →
      ∀ b2 : Nat, d.advanceU.advanceU.peek = some b2 → ∀ t : Token,
      t.is_identifier_extractable = false →
      SubPost d (Except.ok t, d.advanceU.advanceU.advanceU) := by
    intro b hpk b2 hpk2 t hext
    have hlt2 := lt_of_peek_eq_some hpk
    have hlt3 := lt_of_peek_eq_some hpk2
    exact ok_plain_post (by simp) (by simp <;> omega)
      ((hwf2.advanceU_wf hlt2).advanceU_wf hlt3) hext (by simp [hlit])
  have subH : ∀ p : Except LexerError Token × Lexer,
      SubPost d.advanceU p → SubPost d p := by
    intro p hp
    exact hp.mono (by simp <;> omega) (by simp)
  unfold lexDispatch
  dsimp only
  by_cases c1 : d.byteAt = 46
  case pos =>
    rw [if_pos c1]
    exact okA _ (by decide)
  rw [if_neg c1]
  by_cases c2 : d.byteAt = 44
  case pos =>
    rw [if_pos c2]
    exact okA _ (by decide)
  rw [if_neg c2]
  by_cases c3 : d.byteAt = 59
  case pos =>
    rw [if_pos c3]
    exact okA _ (by decide)
  rw [if_neg c3]
  by_cases c4 : d.byteAt = 58
  case pos =>
    rw [if_pos c4]
    exact okA _ (by decide)
  rw [if_neg c4]
  by_cases c5 : d.byteAt = 43
  case pos =>
    rw [if_pos c5]
    split
    · rename_i hpk
      exact okB _ hpk _ (by decide)
    · exact okA _ (by decide)
  rw [if_neg c5]
  by_cases c6 : d.byteAt = 42
  case pos =>
    rw [if_pos c6]
    split
    · rename_i hpk
      exact okB _ hpk _ (by decide)
    · exact okA _ (by decide)
  rw [if_neg c6]
  by_cases c7 : d.byteAt = 47
  case pos =>
    rw [if_pos c7]
    split
    · rename_i hpk
      exact okB _ hpk _ (by decide)
    · exact okA _ (by decide)
  rw [if_neg c7]
  by_cases c8 : d.byteAt = 45
  case pos =>
    rw [if_pos c8]
    split
    · rename_i hpk
      exact okB _ hpk _ (by decide)
    · rename_i hpk
      exact okB _ hpk _ (by decide)
    · exact okA _ (by decide)
  rw [if_neg c8]
  by_cases c9 : d.byteAt = 61
  case pos =>
    rw [if_pos c9]
    split
    · rename_i hpk
      exact okB _ hpk _ (by decide)
    · exact okA _ (by decide)
  rw [if_neg c9]
  by_cases c10 : d.byteAt = 33
  case pos =>
    rw [if_pos c10]
    split
    · rename_i hpk
      exact okB _ hpk _ (by decide)
    · exact okA _ (by decide)
  rw [if_neg c10]
  by_cases c11 : d.byteAt = 60
  case pos =>
    rw [if_pos c11]
    split
    · rename_i hpk
      exact okB _ hpk _ (by decide)
    · rename_i hpk
      split
      · rename_i hpk2
        exact okC _ hpk _ hpk2 _ (by decide)
      · exact okB _ hpk _ (by decide)
    · exact okA _ (by decide)
  rw [if_neg c11]
  by_cases c12 : d.byteAt = 62
  case pos =>
    rw [if_pos c12]
    split
    · rename_i hpk
      exact okB _ hpk _ (by decide)
    · rename_i hpk
      split
      · rename_i hpk2
        exact okC _ hpk _ hpk2 _ (by decide)
      · exact okB _ hpk _ (by decide)
    · exact okA _ (by decide)
  rw [if_neg c12]
  by_cases c13 : d.byteAt = 40
  case pos =>
    rw [if_pos c13]
    exact okA _ (by decide)
  rw [if_neg c13]
  by_cases c14 : d.byteAt = 41
  case pos =>
    rw [if_pos c14]
    exact okA _ (by decide)
  rw [if_neg c14]
  by_cases c15 : d.byteAt = 123
  case pos =>
    rw [if_pos c15]
    exact okA _ (by decide)
  rw [if_neg c15]
  by_cases c16 : d.byteAt = 125
  case pos =>
    rw [if_pos c16]
    exact okA _ (by decide)
  rw [if_neg c16]
  by_cases c17 : d.byteAt = 91
  case pos =>
    rw [if_pos c17]
    exact okA _ (by decide)
  rw [if_neg c17]
  by_cases c18 : d.byteAt = 93
  case pos =>
    rw [if_pos c18]
    exact okA _ (by decide)
  rw [if_neg c18]
  by_cases c19 : d.byteAt = 34
  case pos =>
    rw [if_pos c19]
    exact subH _ (lex_quoted_string_spec _ hpre2)
  rw [if_neg c19]
  by_cases c20 : d.byteAt = 39
  case pos =>
    rw [if_pos c20]
    exact subH _ (lex_character_literal_spec _ hpre2)
  rw [if_neg c20]
  by_cases c21 : d.byteAt = 37
  case pos =>
    rw [if_pos c21]
    split
    · rename_i hpk
      exact okB _ hpk _ (by decide)
    · exact okA _ (by decide)
  rw [if_neg c21]
  by_cases c22 : d.byteAt = 38
  case pos =>
    rw [if_pos c22]
    split
    · rename_i hpk
      exact okB _ hpk _ (by decide)
    · exact okA _ (by decide)
  rw [if_neg c22]
  by_cases c23 : d.byteAt = 124
  case pos =>
    rw [if_pos c23]
    split
    · rename_i hpk
      exact okB _ hpk _ (by decide)
    · exact okA _ (by decide)
  rw [if_neg c23]
  by_cases c24 : d.byteAt = 94
  case pos =>
    rw [if_pos c24]
    split
    · rename_i hpk
      exact okB _ hpk _ (by decide)
    · exact okA _ (by decide)
  rw [if_neg c24]
  by_cases c25 : is_valid_digit d.byteAt = true
  case pos =>
    rw [if_pos c25]
    exact subH _ (lex_ambiguous_number_literal_spec _ hpre2)
  rw [if_neg c25]
  by_cases c26 : is_valid_identifier_head d.byteAt = true
  case pos =>
    rw [if_pos c26]
    obtain ⟨i1, i2, i3, i4⟩ := lex_identifier_spec d.advanceU hpre2
    refine ⟨i1.trans (by simp), le_trans (by simp <;> omega) i2, i3, ?_, by simp⟩
    intro t' ht'
    simp at ht'
    subst ht'
    exact i4
  rw [if_neg c26]
  exact err_state_post (by simp) (by simp <;> omega) hwf2 (by decide)
    (by simp [hlit])


theorem lex_single_token_spec (l : Lexer) (hw : Wf l) :
    (lex_single_token l).2.source = l.source ∧
    l.index ≤ (lex_single_token l).2.index ∧
    Wf (lex_single_token l).2 ∧
    (∀ t, (lex_single_token l).1 = Except.ok t →
      (t.is_identifier_extractable = true ↔
        (lex_single_token l).2.literal.isSome = true)) ∧
    ((lex_single_token l).1 = Except.error LexerError.Eof →
      (lex_single_token l).2 = l.skip_whitespace ∧
        (lex_single_token l).2.is_at_end = true) := by
  obtain ⟨w1, w2, w3, w4⟩ := hw
  obtain ⟨fs, ft, fl, fi, fb, fn, fc⟩ := skip_whitespace_frame l
  unfold lex_single_token
  dsimp only
  by_cases hend : l.skip_whitespace.is_at_end = true
  · rw [if_pos hend]
    dsimp only
    refine ⟨fs, fi, ?_, by simp, fun _ => ⟨rfl, hend⟩⟩
    exact ⟨by rw [ft]; omega, by rw [fs]; exact fb w2, w3.trans fn,
      fun h0 => fc w4 h0⟩
  · have hend' : l.skip_whitespace.is_at_end = false := by simpa using hend
    have hlt0 : l.skip_whitespace.index < l.skip_whitespace.source.length :=
      index_lt_of_not_end hend'
    rw [if_neg hend]
    have hd := dispatch_post
      { l.skip_whitespace with start := l.skip_whitespace.index, literal := none }
      rfl hlt0 (w3.trans fn) rfl
    obtain ⟨d1, d2, d3, d4, d5⟩ := hd
    refine ⟨d1.trans fs, le_trans fi d2, d3, d4, ?_⟩
    intro he
    exact absurd rfl ((d5 _ he).1)

theorem extract_literal_state (l : Lexer) :
    (extract_literal l).2 = { l with literal := none } := by
  unfold extract_literal
  rcases hl : l.literal with _ | t
  · conv_rhs => rw [← hl]
  · rfl

theorem skip_whitespace_at_end {l : Lexer} (h : l.is_at_end = true) :
    l.skip_whitespace = l := by
  have h0 : l.source.length - l.index = 0 := by
    have := len_le_of_end h
    omega
  unfold skip_whitespace
  rw [h0]
  rfl

theorem lex_single_token_at_end {l : Lexer} (h : l.is_at_end = true) :
    lex_single_token l = (Except.error LexerError.Eof, l) := by
  unfold lex_single_token
  dsimp only
  rw [skip_whitespace_at_end h, if_pos h]

theorem advanceU_of_ne {l : Lexer} (h : l.byteAt ≠ 10) :
    l.advanceU = { l with index := l.index + 1, column := l.column + 1 } := by
  unfold advanceU
  rw [if_neg h]

theorem not_at_end_of_lt {l : Lexer} (h : l.index < l.source.length) :
    ¬ l.is_at_end = true := by
  simp [is_at_end]
  omega

theorem skip_whitespace_noop {l : Lexer} (hlt : l.index < l.source.length)
    (hws : is_whitespace l.byteAt = false) (h47 : l.byteAt ≠ 47) :
    l.skip_whitespace = l := by
  have hk : l.source.length - l.index = (l.source.length - l.index - 1) + 1 := by
    omega
  unfold skip_whitespace
  rw [hk]
  unfold skipWhitespaceF
  rw [if_neg (not_at_end_of_lt hlt), if_neg (by simp [hws]), if_neg h47]

theorem lex_single_token_eq_dispatch {l : Lexer}
    (hlt : l.index < l.source.length) (hws : is_whitespace l.byteAt = false)
    (h47 : l.byteAt ≠ 47) (hst : l.start = l.index) (hlit : l.literal = none) :
    lex_single_token l = lexDispatch l := by
  unfold lex_single_token
  dsimp only
  rw [skip_whitespace_noop hlt hws h47, if_neg (not_at_end_of_lt hlt)]
  have hrec : ({ l with start := l.index, literal := none } : Lexer) = l := by
    obtain ⟨s, st, i, lit, li, co⟩ := l
    simp only at hst hlit
    simp [hst, hlit]
  rw [hrec]

theorem lexDispatch_squote {l : Lexer} (h : l.byteAt = 39) :
    lexDispatch l = lex_character_literal l.advanceU := by
  unfold lexDispatch
  dsimp only
  rw [h]
  norm_num

theorem lexDispatch_quote {l : Lexer} (h : l.byteAt = 34) :
    lexDispatch l = lex_quoted_string l.advanceU := by
  unfold lexDispatch
  dsimp only
  rw [h]
  norm_num

theorem lexDispatch_lt {l : Lexer} (h : l.byteAt = 60) :
    lexDispatch l =
      match l.advanceU.peek with
      | some 61 => (Except.ok Token.PuncLtEq, l.advanceU.advanceU)
      | some 60 =>
        match l.advanceU.advanceU.peek with
        | some 61 => (Except.ok Token.PuncShlEq, l.advanceU.advanceU.advanceU)
        | _ => (Except.ok Token.PuncShl, l.advanceU.advanceU)
      | _ => (Except.ok Token.PuncLt, l.advanceU) := by
  unfold lexDispatch
  dsimp only
  rw [h]
  norm_num

theorem lexDispatch_gt {l : Lexer} (h : l.byteAt = 62) :
    lexDispatch l =
      match l.advanceU.peek with
      | some 61 => (Except.ok Token.PuncGtEq, l.advanceU.advanceU)
      | some 62 =>
        match l.advanceU.advanceU.peek with
        | some 61 => (Except.ok Token.PuncShrEq, l.advanceU.advanceU.advanceU)
        | _ => (Except.ok Token.PuncShr, l.advanceU.advanceU)
      | _ => (Except.ok Token.PuncGt, l.advanceU) := by
  unfold lexDispatch
  dsimp only
  rw [h]
  norm_num

end Lexer

theorem reachable_wf {l : Lexer} (h : Reachable l) : Lexer.Wf l := by
  induction h with
  | new src =>
    exact ⟨le_rfl, Nat.zero_le _, le_rfl, fun h0 => absurd h0 (by simp [Lexer.new])⟩
  | lex _ ih => exact (Lexer.lex_single_token_spec _ ih).2.2.1
  | extract _ ih =>
    rw [Lexer.extract_literal_state]
    exact ih

/-! ## Claim theorems -/

/-- C1: after `lex_single_token` returns a token whose category carries the
extractable flag, the first `extract_literal` succeeds with the payload and
clears the slot, a second call fails with `NoLiteralToExtract`, and
`extract_literal` after a token carrying no literal also fails with
`NoLiteralToExtract`. -/
theorem C1_literal_single_consumption (l l' : Lexer) (t : Token)
    (hr : Reachable l) (h : Lexer.lex_single_token l = (Except.ok t, l')) :
    (t.is_identifier_extractable = true →
      ∃ payload : List Nat,
        Lexer.extract_literal l' =
          (Except.ok payload, { l' with literal := none }) ∧
        Lexer.extract_literal { l' with literal := none } =
          (Except.error LexerError.NoLiteralToExtract,
            { l' with literal := none })) ∧
    (t.is_identifier_extractable = false →
      Lexer.extract_literal l' =
        (Except.error LexerError.NoLiteralToExtract, l')) := by
  obtain ⟨-, -, -, h4, -⟩ := Lexer.lex_single_token_spec l (reachable_wf hr)
  have hiff : t.is_identifier_extractable = true ↔ l'.literal.isSome = true := by
    have := h4 t (by rw [h])
    rwa [h] at this
  constructor
  · intro hext
    have hsome : l'.literal.isSome = true := hiff.mp hext
    rcases Option.isSome_iff_exists.mp hsome with ⟨payload, hp⟩
    refine ⟨payload, ?_, ?_⟩
    · unfold Lexer.extract_literal
      rw [hp]
    · rfl
  · intro hext
    have hnone : l'.literal = none := by
      rcases hl' : l'.literal with _ | p
      · rfl
      · have : t.is_identifier_extractable = true := by
          rw [hiff, hl']
          rfl
        rw [hext] at this
        exact absurd this (by decide)
    unfold Lexer.extract_literal
    rw [hnone]

/-- Witness for C1 at the input `"a"`. -/
theorem C1_witness :
    Reachable (Lexer.new [97]) ∧
    Lexer.lex_single_token (Lexer.new [97]) =
      (Except.ok Token.LitIdentifier, ⟨[97], 0, 1, some [97], 1, 1⟩) ∧
    ((Token.LitIdentifier.is_identifier_extractable = true →
      ∃ payload : List Nat,
        Lexer.extract_literal (⟨[97], 0, 1, some [97], 1, 1⟩ : Lexer) =
          (Except.ok payload,
            { (⟨[97], 0, 1, some [97], 1, 1⟩ : Lexer) with literal := none }) ∧
        Lexer.extract_literal
            { (⟨[97], 0, 1, some [97], 1, 1⟩ : Lexer) with literal := none } =
          (Except.error LexerError.NoLiteralToExtract,
            { (⟨[97], 0, 1, some [97], 1, 1⟩ : Lexer) with literal := none })) ∧
    (Token.LitIdentifier.is_identifier_extractable = false →
      Lexer.extract_literal (⟨[97], 0, 1, some [97], 1, 1⟩ : Lexer) =
        (Except.error LexerError.NoLiteralToExtract,
          (⟨[97], 0, 1, some [97], 1, 1⟩ : Lexer)))) :=
  ⟨Reachable.new [97], by decide,
    C1_literal_single_consumption (Lexer.new [97]) ⟨[97], 0, 1, some [97], 1, 1⟩
      Token.LitIdentifier (Reachable.new [97]) (by decide)⟩

/-- C2: once `lex_single_token` returns `Eof`, every subsequent call returns
`Eof` again and leaves the cursor state unchanged. -/
theorem C2_eof_idempotent (l l' : Lexer) (hr : Reachable l)
    (h : Lexer.lex_single_token l = (Except.error LexerError.Eof, l')) :
    Lexer.lex_single_token l' = (Except.error LexerError.Eof, l') ∧
    ∀ n : Nat, (fun s => (Lexer.lex_single_token s).2)^[n] l' = l' := by
  obtain ⟨-, -, -, -, h5⟩ := Lexer.lex_single_token_spec l (reachable_wf hr)
  have hend : l'.is_at_end = true := by
    have := (h5 (by rw [h])).2
    rwa [h] at this
  have hstep : Lexer.lex_single_token l' = (Except.error LexerError.Eof, l') :=
    Lexer.lex_single_token_at_end hend
  refine ⟨hstep, fun n => Function.iterate_fixed ?_ n⟩
  show (Lexer.lex_single_token l').2 = l'
  rw [hstep]

/-- Witness for C2 at the empty input. -/
theorem C2_witness :
    Reachable (Lexer.new []) ∧
    Lexer.lex_single_token (Lexer.new []) =
      (Except.error LexerError.Eof, Lexer.new []) ∧
    (Lexer.lex_single_token (Lexer.new []) =
        (Except.error LexerError.Eof, Lexer.new []) ∧
      ∀ n : Nat,
        (fun s => (Lexer.lex_single_token s).2)^[n] (Lexer.new []) =
          Lexer.new []) :=
  ⟨Reachable.new [], by decide,
    C2_eof_idempotent (Lexer.new []) (Lexer.new []) (Reachable.new []) (by decide)⟩

/-- C3: `"48545"` lexes to one `Integer` token with literal `48545` and the
cursor at end (the next request is `Eof`); `"2485.1"` lexes to one `Float`
token with literal `2485.1` and the cursor at end; `"2485."` fails with
`UnexpectedEofWhile(LitFloat)` with the cursor at end. -/
theorem C3_digit_runs :
    ((Lexer.lex_single_token (Lexer.new [52, 56, 53, 52, 53])).1 =
        Except.ok Token.LitInteger ∧
      (Lexer.lex_single_token (Lexer.new [52, 56, 53, 52, 53])).2.literal =
        some [52, 56, 53, 52, 53] ∧
      (Lexer.lex_single_token (Lexer.new [52, 56, 53, 52, 53])).2.index =
        [52, 56, 53, 52, 53].length ∧
      (Lexer.lex_single_token
        ((Lexer.lex_single_token (Lexer.new [52, 56, 53, 52, 53])).2)).1 =
        Except.error LexerError.Eof) ∧
    ((Lexer.lex_single_token (Lexer.new [50, 52, 56, 53, 46, 49])).1 =
        Except.ok Token.LitFloat ∧
      (Lexer.lex_single_token (Lexer.new [50, 52, 56, 53, 46, 49])).2.literal =
        some [50, 52, 56, 53, 46, 49] ∧
      (Lexer.lex_single_token (Lexer.new [50, 52, 56, 53, 46, 49])).2.index =
        [50, 52, 56, 53, 46, 49].length) ∧
    ((Lexer.lex_single_token (Lexer.new [50, 52, 56, 53, 46])).1 =
        Except.error (LexerError.UnexpectedEofWhile Token.LitFloat) ∧
      (Lexer.lex_single_token (Lexer.new [50, 52, 56, 53, 46])).2.index =
        [50, 52, 56, 53, 46].length) := by decide

/-- C8: every state reachable by public operations satisfies
`start ≤ index ≤ len(source)`; across each operation the index never moves
backwards, and the only backward primitive, `backtrack_unchecked`, steps the
index back by exactly one. -/
theorem C8_cursor_invariant (l : Lexer) (h : Reachable l) :
    (l.start ≤ l.index ∧ l.index ≤ l.source.length) ∧
    l.index ≤ (Lexer.lex_single_token l).2.index ∧
    l.index ≤ (Lexer.extract_literal l).2.index ∧
    (∀ m : Lexer, (Lexer.backtrackU m).index = m.index - 1) := by
  have hw := reachable_wf h
  refine ⟨⟨hw.1, hw.2.1⟩, (Lexer.lex_single_token_spec l hw).2.1, ?_,
    fun m => Lexer.backtrackU_index m⟩
  rw [Lexer.extract_literal_state]

/-- Witness for C8 at the input `"<<="`. -/
theorem C8_witness :
    ((Lexer.new [60, 60, 61]).start ≤ (Lexer.new [60, 60, 61]).index ∧
      (Lexer.new [60, 60, 61]).index ≤ (Lexer.new [60, 60, 61]).source.length) ∧
    (Lexer.new [60, 60, 61]).index ≤
      (Lexer.lex_single_token (Lexer.new [60, 60, 61])).2.index ∧
    (Lexer.new [60, 60, 61]).index ≤
      (Lexer.extract_literal (Lexer.new [60, 60, 61])).2.index ∧
    (∀ m : Lexer, (Lexer.backtrackU m).index = m.index - 1) :=
  C8_cursor_invariant (Lexer.new [60, 60, 61]) (Reachable.new [60, 60, 61])

/-- C9 (counterexample): the freshly created lexer is reachable and its
`get_line_column` reports column `0`, not a 1-based column. -/
theorem C9_counterexample :
    Reachable (Lexer.new [108, 101, 116]) ∧
    (Lexer.get_line_column (Lexer.new [108, 101, 116])).2 = 0 ∧
    ¬ 1 ≤ (Lexer.get_line_column (Lexer.new [108, 101, 116])).2 :=
  ⟨Reachable.new [108, 101, 116], rfl, by decide⟩

/-- C9 (amended): for every reachable lexer state the line is ≥ 1, and the
column is ≥ 1 once at least one byte has been consumed; the freshly created
lexer starts at column 0 (the column counter is 0-based until the first
advance). -/
theorem C9_line_column_amended (l : Lexer) (h : Reachable l) :
    1 ≤ (Lexer.get_line_column l).1 ∧
    (0 < l.index → 1 ≤ (Lexer.get_line_column l).2) ∧
    (Lexer.get_line_column (Lexer.new l.source)).2 = 0 := by
  have hw := reachable_wf h
  exact ⟨hw.2.2.1, hw.2.2.2, rfl⟩

/-- Witness for C9 (amended) at the input `"\n"`. -/
theorem C9_witness :
    Reachable (Lexer.new [10]) ∧
    (1 ≤ (Lexer.get_line_column (Lexer.new [10])).1 ∧
      (0 < (Lexer.new [10]).index →
        1 ≤ (Lexer.get_line_column (Lexer.new [10])).2) ∧
      (Lexer.get_line_column (Lexer.new (Lexer.new [10]).source)).2 = 0) :=
  ⟨Reachable.new [10], C9_line_column_amended (Lexer.new [10]) (Reachable.new [10])⟩

/-- C10 (code bug): on input `"@a"` the iterator returns `None` (from the
`InvalidCharacter` at `@`) and the very next call returns
`Some(LitIdentifier)` for `a`, violating the declared `FusedIterator`
contract. -/
theorem C10_not_fused :
    (Lexer.iterNext (Lexer.new [64, 97])).1 = none ∧
    (Lexer.iterNext ((Lexer.iterNext (Lexer.new [64, 97])).2)).1 =
      some Token.LitIdentifier := by decide

/-- C4 (counterexample): for the input `"\m` (open quote, invalid escape,
end of input) the string sub-lexer reports `UnexpectedEofWhile(LitStr)`, not
`InvalidEscapeSequence`. -/
theorem C4_counterexample :
    (Lexer.lex_single_token (Lexer.new [34, 92, 109])).1 =
      Except.error (LexerError.UnexpectedEofWhile Token.LitStr) ∧
    (Lexer.lex_single_token (Lexer.new [34, 92, 109])).1 ≠
      Except.error LexerError.InvalidEscapeSequence := by decide

/-- C6: maximal munch for the `<`/`>` operator families: the scanner returns
the token of the longest operator spelled at the cursor, consuming exactly
its bytes (`<<=` never lexes as `<` then `<=`, nor `<<` then `=`), deciding
with at most two bytes of lookahead beyond the first (the result is fully
determined by the next one or two bytes). -/
theorem C6_maximal_munch (r : List Nat) :
    Lexer.lex_single_token (Lexer.new (60 :: 61 :: r)) =
      (Except.ok Token.PuncLtEq, ⟨60 :: 61 :: r, 0, 2, none, 1, 2⟩) ∧
    Lexer.lex_single_token (Lexer.new (60 :: 60 :: 61 :: r)) =
      (Except.ok Token.PuncShlEq, ⟨60 :: 60 :: 61 :: r, 0, 3, none, 1, 3⟩) ∧
    (r.headD 0 ≠ 61 →
      Lexer.lex_single_token (Lexer.new (60 :: 60 :: r)) =
        (Except.ok Token.PuncShl, ⟨60 :: 60 :: r, 0, 2, none, 1, 2⟩)) ∧
    (r.headD 0 ≠ 61 → r.headD 0 ≠ 60 →
      Lexer.lex_single_token (Lexer.new (60 :: r)) =
        (Except.ok Token.PuncLt, ⟨60 :: r, 0, 1, none, 1, 1⟩)) ∧
    Lexer.lex_single_token (Lexer.new (62 :: 61 :: r)) =
      (Except.ok Token.PuncGtEq, ⟨62 :: 61 :: r, 0, 2, none, 1, 2⟩) ∧
    Lexer.lex_single_token (Lexer.new (62 :: 62 :: 61 :: r)) =
      (Except.ok Token.PuncShrEq, ⟨62 :: 62 :: 61 :: r, 0, 3, none, 1, 3⟩) ∧
    (r.headD 0 ≠ 61 →
      Lexer.lex_single_token (Lexer.new (62 :: 62 :: r)) =
        (Except.ok Token.PuncShr, ⟨62 :: 62 :: r, 0, 2, none, 1, 2⟩)) ∧
    (r.headD 0 ≠ 61 → r.headD 0 ≠ 62 →
      Lexer.lex_single_token (Lexer.new (62 :: r)) =
        (Except.ok Token.PuncGt, ⟨62 :: r, 0, 1, none, 1, 1⟩)) := by
  refine ⟨?_, ?_, ?_, ?_, ?_, ?_, ?_, ?_⟩
  ·
    rw [@Lexer.lex_single_token_eq_dispatch (Lexer.new (60 :: 61 :: r)) (by simp)
        rfl (by simp [Lexer.byteAt, Lexer.new]) rfl rfl,
      @Lexer.lexDispatch_lt (Lexer.new (60 :: 61 :: r)) rfl]
    have hpk : (Lexer.new (60 :: 61 :: r)).advanceU.peek = some 61 := by
      simp [Lexer.peek]
    rw [hpk]
    simp [Lexer.advanceU, Lexer.byteAt, Lexer.new]
  ·
    rw [@Lexer.lex_single_token_eq_dispatch (Lexer.new (60 :: 60 :: 61 :: r)) (by simp)
        rfl (by simp [Lexer.byteAt, Lexer.new]) rfl rfl,
      @Lexer.lexDispatch_lt (Lexer.new (60 :: 60 :: 61 :: r)) rfl]
    have hpk : (Lexer.new (60 :: 60 :: 61 :: r)).advanceU.peek = some 60 := by
      simp [Lexer.peek]
    have hpk2 : (Lexer.new (60 :: 60 :: 61 :: r)).advanceU.advanceU.peek = some 61 := by
      simp [Lexer.peek]
    rw [hpk, hpk2]
    simp [Lexer.advanceU, Lexer.byteAt, Lexer.new]
  · intro h61
    rw [@Lexer.lex_single_token_eq_dispatch (Lexer.new (60 :: 60 :: r)) (by simp)
        rfl (by simp [Lexer.byteAt, Lexer.new]) rfl rfl,
      @Lexer.lexDispatch_lt (Lexer.new (60 :: 60 :: r)) rfl]
    have hpk : (Lexer.new (60 :: 60 :: r)).advanceU.peek = some 60 := by
      simp [Lexer.peek]
    rw [hpk]
    split
    · rename_i heq
      simp at heq
    · split
      · rename_i heq
        simp [Lexer.peek] at heq
        cases r <;> simp_all
      · simp [Lexer.advanceU, Lexer.byteAt, Lexer.new]
    · rename_i hn1 hn2
      exact absurd rfl hn2
  · intro h61 h60
    rw [@Lexer.lex_single_token_eq_dispatch (Lexer.new (60 :: r)) (by simp)
        rfl (by simp [Lexer.byteAt, Lexer.new]) rfl rfl,
      @Lexer.lexDispatch_lt (Lexer.new (60 :: r)) rfl]
    split
    · rename_i heq
      simp [Lexer.peek] at heq
      cases r <;> simp_all
    · rename_i heq
      simp [Lexer.peek] at heq
      cases r <;> simp_all
    · simp [Lexer.advanceU, Lexer.byteAt, Lexer.new]
  ·
    rw [@Lexer.lex_single_token_eq_dispatch (Lexer.new (62 :: 61 :: r)) (by simp)
        rfl (by simp [Lexer.byteAt, Lexer.new]) rfl rfl,
      @Lexer.lexDispatch_gt (Lexer.new (62 :: 61 :: r)) rfl]
    have hpk : (Lexer.new (62 :: 61 :: r)).advanceU.peek = some 61 := by
      simp [Lexer.peek]
    rw [hpk]
    simp [Lexer.advanceU, Lexer.byteAt, Lexer.new]
  ·
    rw [@Lexer.lex_single_token_eq_dispatch (Lexer.new (62 :: 62 :: 61 :: r)) (by simp)
        rfl (by simp [Lexer.byteAt, Lexer.new]) rfl rfl,
      @Lexer.lexDispatch_gt (Lexer.new (62 :: 62 :: 61 :: r)) rfl]
    have hpk : (Lexer.new (62 :: 62 :: 61 :: r)).advanceU.peek = some 62 := by
      simp [Lexer.peek]
    have hpk2 : (Lexer.new (62 :: 62 :: 61 :: r)).advanceU.advanceU.peek = some 61 := by
      simp [Lexer.peek]
    rw [hpk, hpk2]
    simp [Lexer.advanceU, Lexer.byteAt, Lexer.new]
  · intro h61
    rw [@Lexer.lex_single_token_eq_dispatch (Lexer.new (62 :: 62 :: r)) (by simp)
        rfl (by simp [Lexer.byteAt, Lexer.new]) rfl rfl,
      @Lexer.lexDispatch_gt (Lexer.new (62 :: 62 :: r)) rfl]
    have hpk : (Lexer.new (62 :: 62 :: r)).advanceU.peek = some 62 := by
      simp [Lexer.peek]
    rw [hpk]
    split
    · rename_i heq
      simp at heq
    · split
      · rename_i heq
        simp [Lexer.peek] at heq
        cases r <;> simp_all
      · simp [Lexer.advanceU, Lexer.byteAt, Lexer.new]
    · rename_i hn1 hn2
      exact absurd rfl hn2
  · intro h61 h62
    rw [@Lexer.lex_single_token_eq_dispatch (Lexer.new (62 :: r)) (by simp)
        rfl (by simp [Lexer.byteAt, Lexer.new]) rfl rfl,
      @Lexer.lexDispatch_gt (Lexer.new (62 :: r)) rfl]
    split
    · rename_i heq
      simp [Lexer.peek] at heq
      cases r <;> simp_all
    · rename_i heq
      simp [Lexer.peek] at heq
      cases r <;> simp_all
    · simp [Lexer.advanceU, Lexer.byteAt, Lexer.new]

/-- Witness for C6 at `r = [32]` (a following space). -/
theorem C6_witness :
    ([32] : List Nat).headD 0 ≠ 61 ∧
    Lexer.lex_single_token (Lexer.new [60, 60, 32]) =
      (Except.ok Token.PuncShl, ⟨[60, 60, 32], 0, 2, none, 1, 2⟩) ∧
    Lexer.lex_single_token (Lexer.new [62, 32]) =
      (Except.ok Token.PuncGt, ⟨[62, 32], 0, 1, none, 1, 1⟩) :=
  ⟨by decide, (C6_maximal_munch [32]).2.2.1 (by decide),
    (C6_maximal_munch [32]).2.2.2.2.2.2.2 (by decide) (by decide)⟩

/-- Evaluation of a character literal whose escape byte is invalid: the
outcome depends only on whether the byte after the two-byte escape is the
closing quote. -/
theorem char_invalid_escape_eval (b v : Nat) (rest : List Nat)
    (h39 : b ≠ 39) (ht : b ≠ 116) (hn : b ≠ 110) (hrr : b ≠ 114)
    (h92 : b ≠ 92) (h0 : b ≠ 48) (hx : b ≠ 120) :
    (Lexer.lex_single_token (Lexer.new (39 :: 92 :: b :: v :: rest))).1 =
      if v = 39 then Except.error LexerError.InvalidEscapeSequence
      else Except.error LexerError.UnclosedCharLiteral := by
  rw [@Lexer.lex_single_token_eq_dispatch (Lexer.new (39 :: 92 :: b :: v :: rest))
      (by simp) rfl (by simp [Lexer.byteAt, Lexer.new]) rfl rfl,
    @Lexer.lexDispatch_squote (Lexer.new (39 :: 92 :: b :: v :: rest)) rfl]
  unfold Lexer.lex_character_literal
  rw [if_neg (Lexer.not_at_end_of_lt (by
    simp only [Lexer.advanceU_index, Lexer.advanceU_source, Lexer.new_index,
      Lexer.new_source, List.length_cons]
    omega))]
  dsimp only
  rw [show (Lexer.new (39 :: 92 :: b :: v :: rest)).advanceU.byteAt = 92 from by
    simp [Lexer.byteAt]]
  rw [if_pos rfl]
  have hpn : (Lexer.new (39 :: 92 :: b :: v :: rest)).advanceU.peek_next = some b := by
    simp [Lexer.peek_next]
  rw [hpn]
  split
  · rename_i heq
    simp at heq
  · rename_i esc heq
    injection heq with hbe
    subst hbe
    rw [if_neg (by simp [h39, ht, hn, hrr, h92, h0]), if_neg hx]
    rw [if_neg (Lexer.not_at_end_of_lt (by
      simp only [Lexer.advanceU_index, Lexer.advanceU_source, Lexer.new_index,
        Lexer.new_source, List.length_cons]
      omega))]
    rw [show (Lexer.new (39 :: 92 :: b :: v :: rest)).advanceU.advanceU.advanceU.byteAt
        = v from by simp [Lexer.byteAt]]
    by_cases hv : v = 39
    · simp [hv]
    · simp [hv]

/-- C5: in a character literal, a backslash followed by a byte outside the
recognized escape set yields `InvalidEscapeSequence` when the byte after the
invalid two-byte escape is the closing quote, and `UnclosedCharLiteral` when
a next byte exists but is not the closing quote; the two error kinds are
distinct. -/
theorem C5_char_escape_errors (b c : Nat) (rest : List Nat)
    (h39 : b ≠ 39) (ht : b ≠ 116) (hn : b ≠ 110) (hrr : b ≠ 114)
    (h92 : b ≠ 92) (h0 : b ≠ 48) (hx : b ≠ 120) (hc : c ≠ 39) :
    (Lexer.lex_single_token (Lexer.new (39 :: 92 :: b :: 39 :: rest))).1 =
      Except.error LexerError.InvalidEscapeSequence ∧
    (Lexer.lex_single_token (Lexer.new (39 :: 92 :: b :: c :: rest))).1 =
      Except.error LexerError.UnclosedCharLiteral ∧
    LexerError.InvalidEscapeSequence ≠ LexerError.UnclosedCharLiteral := by
  refine ⟨?_, ?_, by decide⟩
  · have h := char_invalid_escape_eval b 39 rest h39 ht hn hrr h92 h0 hx
    simpa using h
  · have h := char_invalid_escape_eval b c rest h39 ht hn hrr h92 h0 hx
    rw [h, if_neg hc]

/-- Witness for C5 at `'\m'` and `'\mf` (escape byte `m`, then closing quote
versus `f`). -/
theorem C5_witness :
    ((109 : Nat) ≠ 39 ∧ (109 : Nat) ≠ 116 ∧ (109 : Nat) ≠ 110 ∧
      (109 : Nat) ≠ 114 ∧ (109 : Nat) ≠ 92 ∧ (109 : Nat) ≠ 48 ∧
      (109 : Nat) ≠ 120 ∧ (102 : Nat) ≠ 39) ∧
    ((Lexer.lex_single_token (Lexer.new [39, 92, 109, 39])).1 =
        Except.error LexerError.InvalidEscapeSequence ∧
      (Lexer.lex_single_token (Lexer.new [39, 92, 109, 102])).1 =
        Except.error LexerError.UnclosedCharLiteral ∧
      LexerError.InvalidEscapeSequence ≠ LexerError.UnclosedCharLiteral) :=
  ⟨by decide,
    C5_char_escape_errors 109 102 [] (by decide) (by decide) (by decide)
      (by decide) (by decide) (by decide) (by decide) (by decide)⟩

namespace Lexer

theorem getD_append_length (pre post : List Nat) (c : Nat) :
    (pre ++ c :: post).getD pre.length 0 = c := by
  induction pre with
  | nil => rfl
  | cons a t ih => simpa using ih

theorem strLoopF_step (fuel : Nat) {l : Lexer} (hlt : l.index < l.source.length)
    (h34 : l.byteAt ≠ 34) (h92 : l.byteAt ≠ 92) :
    strLoopF (fuel + 1) l = strLoopF fuel l.advanceU := by
  conv_lhs => unfold strLoopF
  rw [if_neg (not_at_end_of_lt hlt)]
  dsimp only
  rw [if_neg h34, if_neg h92]

theorem strLoopF_quote (fuel : Nat) {l : Lexer} (hlt : l.index < l.source.length)
    (h34 : l.byteAt = 34) :
    strLoopF (fuel + 1) l = (Except.ok (), l.advanceU.backtrackU) := by
  conv_lhs => unfold strLoopF
  rw [if_neg (not_at_end_of_lt hlt)]
  dsimp only
  rw [if_pos h34]

theorem strLoop_step {l : Lexer} (hlt : l.index < l.source.length)
    (h34 : l.byteAt ≠ 34) (h92 : l.byteAt ≠ 92) :
    l.strLoop = l.advanceU.strLoop := by
  have hk : l.source.length - l.index = (l.source.length - l.index - 1) + 1 := by
    omega
  have hfe : l.advanceU.source.length - l.advanceU.index =
      l.source.length - l.index - 1 := by
    simp
    omega
  unfold strLoop
  conv_lhs => rw [hk]
  rw [strLoopF_step _ hlt h34 h92, hfe]

theorem strLoop_quote {l : Lexer} (hlt : l.index < l.source.length)
    (h34 : l.byteAt = 34) :
    l.strLoop = (Except.ok (), l.advanceU.backtrackU) := by
  have hk : l.source.length - l.index = (l.source.length - l.index - 1) + 1 := by
    omega
  unfold strLoop
  rw [hk]
  exact strLoopF_quote _ hlt h34

theorem strLoop_skip : ∀ (s pre post : List Nat) (l : Lexer),
    (∀ x ∈ s, x ≠ 34 ∧ x ≠ 92) →
    l.source = pre ++ s ++ post → l.index = pre.length →
    ∃ l' : Lexer, l.strLoop = l'.strLoop ∧ l'.source = l.source ∧
      l'.start = l.start ∧ l'.literal = l.literal ∧
      l'.index = pre.length + s.length := by
  intro s
  induction s with
  | nil =>
    intro pre post l hall hsrc hidx
    exact ⟨l, rfl, rfl, rfl, rfl, by simpa using hidx⟩
  | cons c s' ih =>
    intro pre post l hall hsrc hidx
    have hlt : l.index < l.source.length := by
      rw [hsrc, hidx]
      simp only [List.length_append, List.length_cons]
      omega
    have hb : l.byteAt = c := by
      show l.source.getD l.index 0 = c
      rw [hsrc, hidx]
      simpa using getD_append_length pre (s' ++ post) c
    obtain ⟨hc34, hc92⟩ := hall c (by simp)
    have hstep := strLoop_step hlt (by rw [hb]; exact hc34) (by rw [hb]; exact hc92)
    obtain ⟨l', h1, h2, h3, h4, h5⟩ := ih (pre ++ [c]) post l.advanceU
      (fun x hx => hall x (by simp [hx]))
      (by simp [hsrc])
      (by simp [hidx])
    refine ⟨l', hstep.trans h1, by simp [h2], by simp [h3], by simp [h4], ?_⟩
    rw [h5]
    simp
    omega

theorem slice_here_eq {l : Lexer} {s : List Nat} (hsrc : l.source = 34 :: s ++ [34])
    (hst : l.start = 1) (hidx : l.index = 1 + s.length) : l.slice_here = s := by
  unfold slice_here
  rw [hsrc, hst, hidx]
  have hdrop : (34 :: s ++ [34]).drop 1 = s ++ [34] := rfl
  have htake : 1 + s.length - 1 = s.length := by omega
  rw [hdrop, htake]
  exact List.take_left s [34]

end Lexer

/-- C7: for every ASCII byte string containing no double quote and no
backslash, lexing the input formed by wrapping it in double quotes yields a
`String` token, and `extract_literal` then returns exactly the original
bytes. -/
theorem C7_round_trip (s : List Nat) (hascii : ∀ x ∈ s, x < 128)
    (hq34 : ∀ x ∈ s, x ≠ 34) (hq92 : ∀ x ∈ s, x ≠ 92) :
    ∃ l' : Lexer,
      Lexer.lex_single_token (Lexer.new (34 :: s ++ [34])) =
        (Except.ok Token.LitStr, l') ∧
      Lexer.extract_literal l' = (Except.ok s, { l' with literal := none }) := by
  rw [@Lexer.lex_single_token_eq_dispatch (Lexer.new (34 :: s ++ [34]))
      (by simp) (by simp [Lexer.byteAt, Lexer.new, is_whitespace])
      (by simp [Lexer.byteAt, Lexer.new]) rfl rfl,
    @Lexer.lexDispatch_quote (Lexer.new (34 :: s ++ [34]))
      (by simp [Lexer.byteAt, Lexer.new])]
  unfold Lexer.lex_quoted_string
  rw [if_neg (Lexer.not_at_end_of_lt (by
    simp only [Lexer.advanceU_index, Lexer.advanceU_source, Lexer.new_index,
      Lexer.new_source, List.length_cons, List.length_append]
    omega))]
  obtain ⟨l1, h1, h2, h3, h4, h5⟩ := Lexer.strLoop_skip s [34] [34]
    (Lexer.new (34 :: s ++ [34])).advanceU
    (fun x hx => ⟨hq34 x hx, hq92 x hx⟩)
    (by simp) (by simp)
  have hsrc1 : l1.source = 34 :: s ++ [34] := by rw [h2]; simp
  have hst1 : l1.start = 0 := by rw [h3]; simp
  have hlit1 : l1.literal = none := by rw [h4]; simp
  have h5' : l1.index = 1 + s.length := by simpa using h5
  have hlt1 : l1.index < l1.source.length := by
    rw [h5', hsrc1]
    simp only [List.length_cons, List.length_append]
    omega
  have hb1 : l1.byteAt = 34 := by
    show l1.source.getD l1.index 0 = 34
    rw [hsrc1, h5']
    have hshape : (34 : Nat) :: s ++ [34] = (34 :: s) ++ 34 :: [] := by simp
    rw [hshape]
    have hlen2 : 1 + s.length = (34 :: s).length := by simp [Nat.add_comm]
    rw [hlen2]
    exact Lexer.getD_append_length (34 :: s) [] 34
  have hclose : (Lexer.new (34 :: s ++ [34])).advanceU.strLoop =
      (Except.ok (), { l1 with column := l1.column + 1 }) := by
    rw [h1, Lexer.strLoop_quote hlt1 hb1, Lexer.frame_adv_back (by rw [hb1]; decide)]
  split
  · rename_i e l2 heq
    rw [hclose] at heq
    simp at heq
  · rename_i u l2 heq
    rw [hclose] at heq
    injection heq with hA hB
    subst hB
    rw [if_neg (Lexer.not_at_end_of_lt
      (show ({ l1 with column := l1.column + 1 } : Lexer).index <
        ({ l1 with column := l1.column + 1 } : Lexer).source.length from hlt1))]
    rw [if_neg (show ¬ ({ l1 with column := l1.column + 1 } : Lexer).byteAt ≠ 34 from by
      rw [show ({ l1 with column := l1.column + 1 } : Lexer).byteAt = l1.byteAt from rfl,
        hb1]
      simp)]
  -- success branch: the literal is the interior slice, which is exactly s
    dsimp only
    refine ⟨_, rfl, ?_⟩
    simp only [Lexer.extract_literal]
    simp [Lexer.slice_here, hsrc1, hst1, h5', List.take_left]

/-- Witness for C7 at the body `"ab"`. -/
theorem C7_witness :
    (∀ x ∈ ([97, 98] : List Nat), x < 128) ∧
    (∃ l' : Lexer,
      Lexer.lex_single_token (Lexer.new (34 :: [97, 98] ++ [34])) =
        (Except.ok Token.LitStr, l') ∧
      Lexer.extract_literal l' = (Except.ok [97, 98], { l' with literal := none })) :=
  ⟨by decide, C7_round_trip [97, 98] (by decide) (by decide) (by decide)⟩

/-- Specification of the string sub-lexer's resynchronization distance
after an invalid escape: the number of bytes, counted from just past the
invalid escape byte, that the recovery scan consumes up to and including the
next unescaped closing quote; `none` when end of input is reached first.  A
backslash consumes the following byte unconditionally, mirroring the scan in
`lex_quoted_string`. -/
def resyncSpec : List Nat → Option Nat
  | [] => none
  | [c] => if c = 34 then some 1 else none
  | c :: d :: t =>
    if c = 34 then some 1
    else if c = 92 then (resyncSpec t).map (· + 2)
    else (resyncSpec (d :: t)).map (· + 1)

theorem resyncSpec_pos_aux : ∀ (n : Nat) (s : List Nat), s.length ≤ n →
    ∀ k, resyncSpec s = some k → 1 ≤ k ∧ k ≤ s.length := by
  intro n
  induction n with
  | zero =>
    intro s hlen k h
    have : s = [] := List.eq_nil_of_length_eq_zero (by omega)
    subst this
    simp [resyncSpec] at h
  | succ m ih =>
    intro s hlen k h
    rcases s with _ | ⟨c, _ | ⟨d, t⟩⟩
    · simp [resyncSpec] at h
    · rw [resyncSpec] at h
      by_cases hc34 : c = 34
      · rw [if_pos hc34] at h
        simp at h
        simp [← h]
      · rw [if_neg hc34] at h
        simp at h
    · rw [resyncSpec] at h
      by_cases hc34 : c = 34
      · rw [if_pos hc34] at h
        simp at h
        simp [← h]
      · rw [if_neg hc34] at h
        by_cases hc92 : c = 92
        · rw [if_pos hc92] at h
          simp only [Option.map_eq_some'] at h
          obtain ⟨k0, hk0, hk⟩ := h
          have := ih t (by simp at hlen; omega) k0 hk0
          simp
          omega
        · rw [if_neg hc92] at h
          simp only [Option.map_eq_some'] at h
          obtain ⟨k0, hk0, hk⟩ := h
          have := ih (d :: t) (by simp at hlen; simp; omega) k0 hk0
          simp at this ⊢
          omega

theorem resyncSpec_pos (s : List Nat) (k : Nat) (h : resyncSpec s = some k) :
    1 ≤ k ∧ k ≤ s.length :=
  resyncSpec_pos_aux s.length s le_rfl k h

namespace Lexer

theorem strResyncF_at_end : ∀ (fuel : Nat) (l : Lexer),
    l.source.length ≤ l.index → strResyncF fuel l = (Except.ok (), l) := by
  intro fuel l h
  cases fuel with
  | zero => rfl
  | succ g =>
    unfold strResyncF
    rw [if_pos ((is_at_end_iff l).mpr h)]

theorem strResyncF_quote (fuel : Nat) {l : Lexer} (hlt : l.index < l.source.length)
    (h34 : l.byteAt = 34) :
    strResyncF (fuel + 1) l = (Except.ok (), l.advanceU.backtrackU) := by
  conv_lhs => unfold strResyncF
  rw [if_neg (not_at_end_of_lt hlt)]
  dsimp only
  rw [if_pos h34]

theorem strResyncF_esc_end (fuel : Nat) {l : Lexer} (hlt : l.index < l.source.length)
    (h92 : l.byteAt = 92) (hend1 : l.source.length ≤ l.index + 1) :
    strResyncF (fuel + 1) l =
      (Except.error (LexerError.UnexpectedEofWhile Token.LitStr), l.advanceU) := by
  conv_lhs => unfold strResyncF
  rw [if_neg (not_at_end_of_lt hlt)]
  dsimp only
  rw [if_neg (by simp [h92]), if_pos h92,
    if_pos ((is_at_end_iff l.advanceU).mpr (by simp; omega))]

theorem strResyncF_esc_step (fuel : Nat) {l : Lexer} (hlt : l.index < l.source.length)
    (h92 : l.byteAt = 92) (hlt1 : l.index + 1 < l.source.length) :
    strResyncF (fuel + 1) l = strResyncF fuel l.advanceU.advanceU := by
  conv_lhs => unfold strResyncF
  rw [if_neg (not_at_end_of_lt hlt)]
  dsimp only
  rw [if_neg (by simp [h92]), if_pos h92,
    if_neg (by rw [is_at_end_iff]; simp; omega)]

theorem strResyncF_skip (fuel : Nat) {l : Lexer} (hlt : l.index < l.source.length)
    (h34 : ¬ l.byteAt = 34) (h92 : ¬ l.byteAt = 92) :
    strResyncF (fuel + 1) l = strResyncF fuel l.advanceU := by
  conv_lhs => unfold strResyncF
  rw [if_neg (not_at_end_of_lt hlt)]
  dsimp only
  rw [if_neg h34, if_neg h92]

theorem strResyncF_irrel : ∀ (f1 f2 : Nat) (l : Lexer),
    l.source.length - l.index ≤ f1 → l.source.length - l.index ≤ f2 →
    strResyncF f1 l = strResyncF f2 l := by
  intro f1
  induction f1 with
  | zero =>
    intro f2 l h1 h2
    rw [strResyncF_at_end 0 l (by omega), strResyncF_at_end f2 l (by omega)]
  | succ g ih =>
    intro f2 l h1 h2
    by_cases hend : l.source.length ≤ l.index
    · rw [strResyncF_at_end _ l hend, strResyncF_at_end _ l hend]
    · have hlt : l.index < l.source.length := by omega
      cases f2 with
      | zero => omega
      | succ g2 =>
        by_cases h34 : l.byteAt = 34
        · rw [strResyncF_quote g hlt h34, strResyncF_quote g2 hlt h34]
        · by_cases h92 : l.byteAt = 92
          · by_cases hend1 : l.source.length ≤ l.index + 1
            · rw [strResyncF_esc_end g hlt h92 hend1,
                strResyncF_esc_end g2 hlt h92 hend1]
            · have hlt1 : l.index + 1 < l.source.length := by omega
              rw [strResyncF_esc_step g hlt h92 hlt1,
                strResyncF_esc_step g2 hlt h92 hlt1]
              exact ih g2 _ (by simp <;> omega) (by simp <;> omega)
          · rw [strResyncF_skip g hlt h34 h92, strResyncF_skip g2 hlt h34 h92]
            exact ih g2 _ (by simp <;> omega) (by simp <;> omega)

theorem strResync_at_end {l : Lexer} (h : l.source.length ≤ l.index) :
    l.strResync = (Except.ok (), l) := by
  rw [strResync]
  have hz : l.source.length - l.index = 0 := by omega
  rw [hz]
  exact strResyncF_at_end 0 l h

theorem strResync_quote {l : Lexer} (hlt : l.index < l.source.length)
    (h34 : l.byteAt = 34) :
    l.strResync = (Except.ok (), l.advanceU.backtrackU) := by
  rw [strResync]
  have hfe : l.source.length - l.index = (l.source.length - l.index - 1) + 1 := by omega
  rw [hfe, strResyncF_quote _ hlt h34]

theorem strResync_esc_end {l : Lexer} (hlt : l.index < l.source.length)
    (h92 : l.byteAt = 92) (hend1 : l.source.length ≤ l.index + 1) :
    l.strResync = (Except.error (LexerError.UnexpectedEofWhile Token.LitStr), l.advanceU) := by
  rw [strResync]
  have hfe : l.source.length - l.index = (l.source.length - l.index - 1) + 1 := by omega
  rw [hfe, strResyncF_esc_end _ hlt h92 hend1]

theorem strResync_esc {l : Lexer} (hlt : l.index < l.source.length)
    (h92 : l.byteAt = 92) (hlt1 : l.index + 1 < l.source.length) :
    l.strResync = l.advanceU.advanceU.strResync := by
  rw [strResync, strResync]
  have hfe : l.source.length - l.index = (l.source.length - l.index - 1) + 1 := by omega
  rw [hfe, strResyncF_esc_step _ hlt h92 hlt1]
  exact strResyncF_irrel _ _ _ (by simp <;> omega) (by simp <;> omega)

theorem strResync_skip {l : Lexer} (hlt : l.index < l.source.length)
    (h34 : ¬ l.byteAt = 34) (h92 : ¬ l.byteAt = 92) :
    l.strResync = l.advanceU.strResync := by
  rw [strResync, strResync]
  have hfe : l.source.length - l.index = (l.source.length - l.index - 1) + 1 := by omega
  rw [hfe, strResyncF_skip _ hlt h34 h92]
  exact strResyncF_irrel _ _ _ (by simp <;> omega) (by simp <;> omega)

theorem strResync_spec_aux : ∀ (n : Nat) (s pre : List Nat) (l : Lexer),
    s.length ≤ n →
    l.source = pre ++ s → l.index = pre.length →
    (∀ k, resyncSpec s = some k →
      ∃ l' : Lexer, l.strResync = (Except.ok (), l') ∧
        l'.source = l.source ∧ l'.index = pre.length + (k - 1)) ∧
    (resyncSpec s = none →
      (l.strResync).2.source = l.source ∧
      (l.strResync).2.index = l.source.length) := by
  intro n
  induction n with
  | zero =>
    intro s pre l hlen hsrc hidx
    have hs : s = [] := List.eq_nil_of_length_eq_zero (by omega)
    subst hs
    constructor
    · intro k hk; simp [resyncSpec] at hk
    · intro _
      have hend : l.source.length ≤ l.index := by rw [hsrc, hidx]; simp
      rw [strResync_at_end hend]
      exact ⟨rfl, by rw [hsrc, hidx]; simp⟩
  | succ m ih =>
    intro s pre l hlen hsrc hidx
    rcases s with _ | ⟨c, s1⟩
    · constructor
      · intro k hk; simp [resyncSpec] at hk
      · intro _
        have hend : l.source.length ≤ l.index := by rw [hsrc, hidx]; simp
        rw [strResync_at_end hend]
        exact ⟨rfl, by rw [hsrc, hidx]; simp⟩
    · have hlt : l.index < l.source.length := by
        rw [hsrc, hidx]; simp
      have hbyte : l.byteAt = c := by
        rw [byteAt, hsrc, hidx]; exact getD_append_length pre s1 c
      by_cases hc34 : c = 34
      · subst hc34
        have hq : resyncSpec (34 :: s1) = some 1 := by
          rcases s1 with _ | ⟨d, t⟩ <;> simp [resyncSpec]
        rw [strResync_quote hlt hbyte]
        constructor
        · intro k hk
          rw [hq] at hk
          have hk1 : k = 1 := by simpa using hk.symm
          refine ⟨l.advanceU.backtrackU, rfl, by simp, ?_⟩
          simp [hidx, hk1]
        · intro hnone
          rw [hq] at hnone
          simp at hnone
      · by_cases hc92 : c = 92
        · subst hc92
          rcases s1 with _ | ⟨d, t⟩
          · have hend1 : l.source.length ≤ l.index + 1 := by rw [hsrc, hidx]; simp
            rw [strResync_esc_end hlt hbyte hend1]
            constructor
            · intro k hk; simp [resyncSpec] at hk
            · intro _
              exact ⟨by simp, by simp [hsrc, hidx]⟩
          · have hlt1 : l.index + 1 < l.source.length := by
              rw [hsrc, hidx]; simp
            rw [strResync_esc hlt hbyte hlt1]
            have hsrc2 : l.advanceU.advanceU.source = (pre ++ [92, d]) ++ t := by
              simp [hsrc]
            have hidx2 : l.advanceU.advanceU.index = (pre ++ [92, d]).length := by
              simp [hidx]
            have ih2 := ih t (pre ++ [92, d]) l.advanceU.advanceU
              (by simp at hlen ⊢; omega) hsrc2 hidx2
            constructor
            · intro k hk
              rw [resyncSpec, if_neg (by decide), if_pos rfl] at hk
              simp only [Option.map_eq_some'] at hk
              obtain ⟨k0, hk0, hkk⟩ := hk
              obtain ⟨l', hrs, hsrc', hidx'⟩ := ih2.1 k0 hk0
              have hpos := resyncSpec_pos t k0 hk0
              refine ⟨l', hrs, by rw [hsrc']; simp, ?_⟩
              rw [hidx']
              simp
              omega
            · intro hnone
              rw [resyncSpec, if_neg (by decide), if_pos rfl] at hnone
              simp only [Option.map_eq_none'] at hnone
              obtain ⟨h1, h2⟩ := ih2.2 hnone
              constructor
              · rw [h1]; simp
              · rw [h2]; simp
        · have hb34 : ¬ l.byteAt = 34 := by rw [hbyte]; exact hc34
          have hb92 : ¬ l.byteAt = 92 := by rw [hbyte]; exact hc92
          have hcs : resyncSpec (c :: s1) = (resyncSpec s1).map (· + 1) := by
            rcases s1 with _ | ⟨d, t⟩
            · simp [resyncSpec, hc34]
            · rw [resyncSpec, if_neg hc34, if_neg hc92]
          rw [strResync_skip hlt hb34 hb92]
          have hsrc2 : l.advanceU.source = (pre ++ [c]) ++ s1 := by simp [hsrc]
          have hidx2 : l.advanceU.index = (pre ++ [c]).length := by simp [hidx]
          have ih2 := ih s1 (pre ++ [c]) l.advanceU
            (by simp at hlen ⊢; omega) hsrc2 hidx2
          constructor
          · intro k hk
            rw [hcs] at hk
            simp only [Option.map_eq_some'] at hk
            obtain ⟨k0, hk0, hkk⟩ := hk
            obtain ⟨l', hrs, hsrc', hidx'⟩ := ih2.1 k0 hk0
            have hpos := resyncSpec_pos s1 k0 hk0
            refine ⟨l', hrs, by rw [hsrc']; simp, ?_⟩
            rw [hidx']
            simp
            omega
          · intro hnone
            rw [hcs] at hnone
            simp only [Option.map_eq_none'] at hnone
            obtain ⟨h1, h2⟩ := ih2.2 hnone
            exact ⟨by rw [h1]; simp, by rw [h2]; simp⟩

theorem strResync_spec (s pre : List Nat) (l : Lexer)
    (hsrc : l.source = pre ++ s) (hidx : l.index = pre.length) :
    (∀ k, resyncSpec s = some k →
      ∃ l' : Lexer, l.strResync = (Except.ok (), l') ∧
        l'.source = l.source ∧ l'.index = pre.length + (k - 1)) ∧
    (resyncSpec s = none →
      (l.strResync).2.source = l.source ∧
      (l.strResync).2.index = l.source.length) :=
  strResync_spec_aux s.length s pre l le_rfl hsrc hidx

theorem strLoopF_esc_invalid_end (fuel : Nat) {l : Lexer}
    (hlt : l.index < l.source.length) (h92 : l.byteAt = 92)
    (hlt1 : l.index + 1 < l.source.length)
    (hbad : ¬(l.advanceU.byteAt = 34 ∨ l.advanceU.byteAt = 116 ∨
      l.advanceU.byteAt = 110 ∨ l.advanceU.byteAt = 114 ∨
      l.advanceU.byteAt = 92 ∨ l.advanceU.byteAt = 48))
    (hx : ¬ l.advanceU.byteAt = 120)
    (hend2 : l.advanceU.advanceU.is_at_end = true) :
    strLoopF (fuel + 1) l =
      (Except.error (LexerError.UnexpectedEofWhile Token.LitStr),
        l.advanceU.advanceU) := by
  conv_lhs => unfold strLoopF
  rw [if_neg (not_at_end_of_lt hlt)]
  dsimp only
  rw [if_neg (show ¬ l.byteAt = 34 by simp [h92]), if_pos h92,
    if_neg (show ¬ l.advanceU.is_at_end = true from not_at_end_of_lt (by simpa using hlt1)),
    if_neg hbad, if_neg hx, if_pos hend2]

theorem strLoopF_esc_invalid_err (fuel : Nat) {l l3 : Lexer} {e : LexerError}
    (hlt : l.index < l.source.length) (h92 : l.byteAt = 92)
    (hlt1 : l.index + 1 < l.source.length)
    (hbad : ¬(l.advanceU.byteAt = 34 ∨ l.advanceU.byteAt = 116 ∨
      l.advanceU.byteAt = 110 ∨ l.advanceU.byteAt = 114 ∨
      l.advanceU.byteAt = 92 ∨ l.advanceU.byteAt = 48))
    (hx : ¬ l.advanceU.byteAt = 120)
    (hend2 : l.advanceU.advanceU.is_at_end = false)
    (hres : l.advanceU.advanceU.strResync = (Except.error e, l3)) :
    strLoopF (fuel + 1) l = (Except.error e, l3) := by
  conv_lhs => unfold strLoopF
  rw [if_neg (not_at_end_of_lt hlt)]
  dsimp only
  rw [if_neg (show ¬ l.byteAt = 34 by simp [h92]), if_pos h92,
    if_neg (show ¬ l.advanceU.is_at_end = true from not_at_end_of_lt (by simpa using hlt1)),
    if_neg hbad, if_neg hx,
    if_neg (show ¬ l.advanceU.advanceU.is_at_end = true by simp [hend2])]
  split
  · rename_i e0 l30 heq
    rw [hres] at heq
    simp only [Prod.mk.injEq, Except.error.injEq] at heq
    obtain ⟨hA, hB⟩ := heq
    rw [hA, hB]
  · rename_i u l30 heq
    rw [hres] at heq
    simp at heq

theorem strLoopF_esc_invalid_ok (fuel : Nat) {l l3 : Lexer}
    (hlt : l.index < l.source.length) (h92 : l.byteAt = 92)
    (hlt1 : l.index + 1 < l.source.length)
    (hbad : ¬(l.advanceU.byteAt = 34 ∨ l.advanceU.byteAt = 116 ∨
      l.advanceU.byteAt = 110 ∨ l.advanceU.byteAt = 114 ∨
      l.advanceU.byteAt = 92 ∨ l.advanceU.byteAt = 48))
    (hx : ¬ l.advanceU.byteAt = 120)
    (hend2 : l.advanceU.advanceU.is_at_end = false)
    (hres : l.advanceU.advanceU.strResync = (Except.ok (), l3))
    (hend3 : l3.is_at_end = false) :
    strLoopF (fuel + 1) l =
      (Except.error LexerError.InvalidEscapeSequence, l3.advanceU) := by
  conv_lhs => unfold strLoopF
  rw [if_neg (not_at_end_of_lt hlt)]
  dsimp only
  rw [if_neg (show ¬ l.byteAt = 34 by simp [h92]), if_pos h92,
    if_neg (show ¬ l.advanceU.is_at_end = true from not_at_end_of_lt (by simpa using hlt1)),
    if_neg hbad, if_neg hx,
    if_neg (show ¬ l.advanceU.advanceU.is_at_end = true by simp [hend2])]
  split
  · rename_i e0 l30 heq
    rw [hres] at heq
    simp at heq
  · rename_i u l30 heq
    rw [hres] at heq
    simp only [Prod.mk.injEq] at heq
    obtain ⟨hA, hB⟩ := heq
    rw [← hB, if_neg (show ¬ l3.is_at_end = true by simp [hend3])]

theorem strLoopF_esc_invalid_ok_end (fuel : Nat) {l l3 : Lexer}
    (hlt : l.index < l.source.length) (h92 : l.byteAt = 92)
    (hlt1 : l.index + 1 < l.source.length)
    (hbad : ¬(l.advanceU.byteAt = 34 ∨ l.advanceU.byteAt = 116 ∨
      l.advanceU.byteAt = 110 ∨ l.advanceU.byteAt = 114 ∨
      l.advanceU.byteAt = 92 ∨ l.advanceU.byteAt = 48))
    (hx : ¬ l.advanceU.byteAt = 120)
    (hend2 : l.advanceU.advanceU.is_at_end = false)
    (hres : l.advanceU.advanceU.strResync = (Except.ok (), l3))
    (hend3 : l3.is_at_end = true) :
    strLoopF (fuel + 1) l =
      (Except.error (LexerError.UnexpectedEofWhile Token.LitStr), l3) := by
  conv_lhs => unfold strLoopF
  rw [if_neg (not_at_end_of_lt hlt)]
  dsimp only
  rw [if_neg (show ¬ l.byteAt = 34 by simp [h92]), if_pos h92,
    if_neg (show ¬ l.advanceU.is_at_end = true from not_at_end_of_lt (by simpa using hlt1)),
    if_neg hbad, if_neg hx,
    if_neg (show ¬ l.advanceU.advanceU.is_at_end = true by simp [hend2])]
  split
  · rename_i e0 l30 heq
    rw [hres] at heq
    simp at heq
  · rename_i u l30 heq
    rw [hres] at heq
    simp only [Prod.mk.injEq] at heq
    obtain ⟨hA, hB⟩ := heq
    rw [← hB, if_pos hend3]

theorem strLoop_esc_invalid_end {l : Lexer}
    (hlt : l.index < l.source.length) (h92 : l.byteAt = 92)
    (hlt1 : l.index + 1 < l.source.length)
    (hbad : ¬(l.advanceU.byteAt = 34 ∨ l.advanceU.byteAt = 116 ∨
      l.advanceU.byteAt = 110 ∨ l.advanceU.byteAt = 114 ∨
      l.advanceU.byteAt = 92 ∨ l.advanceU.byteAt = 48))
    (hx : ¬ l.advanceU.byteAt = 120)
    (hend2 : l.advanceU.advanceU.is_at_end = true) :
    l.strLoop =
      (Except.error (LexerError.UnexpectedEofWhile Token.LitStr),
        l.advanceU.advanceU) := by
  unfold strLoop
  have hk : l.source.length - l.index = (l.source.length - l.index - 1) + 1 := by omega
  rw [hk]
  exact strLoopF_esc_invalid_end _ hlt h92 hlt1 hbad hx hend2

theorem strLoop_esc_invalid_err {l l3 : Lexer} {e : LexerError}
    (hlt : l.index < l.source.length) (h92 : l.byteAt = 92)
    (hlt1 : l.index + 1 < l.source.length)
    (hbad : ¬(l.advanceU.byteAt = 34 ∨ l.advanceU.byteAt = 116 ∨
      l.advanceU.byteAt = 110 ∨ l.advanceU.byteAt = 114 ∨
      l.advanceU.byteAt = 92 ∨ l.advanceU.byteAt = 48))
    (hx : ¬ l.advanceU.byteAt = 120)
    (hend2 : l.advanceU.advanceU.is_at_end = false)
    (hres : l.advanceU.advanceU.strResync = (Except.error e, l3)) :
    l.strLoop = (Except.error e, l3) := by
  unfold strLoop
  have hk : l.source.length - l.index = (l.source.length - l.index - 1) + 1 := by omega
  rw [hk]
  exact strLoopF_esc_invalid_err _ hlt h92 hlt1 hbad hx hend2 hres

theorem strLoop_esc_invalid_ok {l l3 : Lexer}
    (hlt : l.index < l.source.length) (h92 : l.byteAt = 92)
    (hlt1 : l.index + 1 < l.source.length)
    (hbad : ¬(l.advanceU.byteAt = 34 ∨ l.advanceU.byteAt = 116 ∨
      l.advanceU.byteAt = 110 ∨ l.advanceU.byteAt = 114 ∨
      l.advanceU.byteAt = 92 ∨ l.advanceU.byteAt = 48))
    (hx : ¬ l.advanceU.byteAt = 120)
    (hend2 : l.advanceU.advanceU.is_at_end = false)
    (hres : l.advanceU.advanceU.strResync = (Except.ok (), l3))
    (hend3 : l3.is_at_end = false) :
    l.strLoop = (Except.error LexerError.InvalidEscapeSequence, l3.advanceU) := by
  unfold strLoop
  have hk : l.source.length - l.index = (l.source.length - l.index - 1) + 1 := by omega
  rw [hk]
  exact strLoopF_esc_invalid_ok _ hlt h92 hlt1 hbad hx hend2 hres hend3

theorem strLoop_esc_invalid_ok_end {l l3 : Lexer}
    (hlt : l.index < l.source.length) (h92 : l.byteAt = 92)
    (hlt1 : l.index + 1 < l.source.length)
    (hbad : ¬(l.advanceU.byteAt = 34 ∨ l.advanceU.byteAt = 116 ∨
      l.advanceU.byteAt = 110 ∨ l.advanceU.byteAt = 114 ∨
      l.advanceU.byteAt = 92 ∨ l.advanceU.byteAt = 48))
    (hx : ¬ l.advanceU.byteAt = 120)
    (hend2 : l.advanceU.advanceU.is_at_end = false)
    (hres : l.advanceU.advanceU.strResync = (Except.ok (), l3))
    (hend3 : l3.is_at_end = true) :
    l.strLoop = (Except.error (LexerError.UnexpectedEofWhile Token.LitStr), l3) := by
  unfold strLoop
  have hk : l.source.length - l.index = (l.source.length - l.index - 1) + 1 := by omega
  rw [hk]
  exact strLoopF_esc_invalid_ok_end _ hlt h92 hlt1 hbad hx hend2 hres hend3

end Lexer

/-- C4: when the string sub-lexer meets an invalid escape sequence it scans
forward for the next unescaped closing double quote.  If such a quote exists
(`resyncSpec` returns the scan distance `k`) the result is an
`InvalidEscapeSequence` error with the cursor just past that quote; if end of
input is reached first (`resyncSpec` returns `none`) the result is an
`UnexpectedEofWhile(String)` error with the cursor at the end of input — the
error is not `InvalidEscapeSequence` in both cases. -/
theorem C4_string_invalid_escape_resync (p : List Nat) (b : Nat) (s : List Nat)
    (hp : ∀ x ∈ p, x ≠ 34 ∧ x ≠ 92)
    (hb : b ≠ 34 ∧ b ≠ 116 ∧ b ≠ 110 ∧ b ≠ 114 ∧ b ≠ 92 ∧ b ≠ 48 ∧ b ≠ 120) :
    (∀ k, resyncSpec s = some k →
      (Lexer.lex_single_token (Lexer.new (34 :: p ++ 92 :: b :: s))).1 =
        Except.error LexerError.InvalidEscapeSequence ∧
      (Lexer.lex_single_token (Lexer.new (34 :: p ++ 92 :: b :: s))).2.index =
        p.length + 3 + k) ∧
    (resyncSpec s = none →
      (Lexer.lex_single_token (Lexer.new (34 :: p ++ 92 :: b :: s))).1 =
        Except.error (LexerError.UnexpectedEofWhile Token.LitStr) ∧
      (Lexer.lex_single_token (Lexer.new (34 :: p ++ 92 :: b :: s))).2.index =
        (34 :: p ++ 92 :: b :: s).length) := by
  have hmain : Lexer.lex_single_token (Lexer.new (34 :: p ++ 92 :: b :: s)) =
      Lexer.lex_quoted_string (Lexer.new (34 :: p ++ 92 :: b :: s)).advanceU := by
    rw [@Lexer.lex_single_token_eq_dispatch (Lexer.new (34 :: p ++ 92 :: b :: s))
        (by simp) (by simp [Lexer.byteAt, Lexer.new, is_whitespace])
        (by simp [Lexer.byteAt, Lexer.new]) rfl rfl,
      @Lexer.lexDispatch_quote (Lexer.new (34 :: p ++ 92 :: b :: s))
        (by simp [Lexer.byteAt, Lexer.new])]
  have hlt0 : ((Lexer.new (34 :: p ++ 92 :: b :: s)).advanceU).index <
      ((Lexer.new (34 :: p ++ 92 :: b :: s)).advanceU).source.length := by
    simp only [Lexer.advanceU_index, Lexer.advanceU_source, Lexer.new_index,
      Lexer.new_source, List.length_cons, List.length_append]
    omega
  obtain ⟨l1, hL, h2, h3, h4, h5⟩ := Lexer.strLoop_skip p [34] (92 :: b :: s)
    (Lexer.new (34 :: p ++ 92 :: b :: s)).advanceU
    hp (by simp) (by simp)
  have hs1 : l1.source = 34 :: p ++ 92 :: b :: s := by rw [h2]; simp
  have hi1 : l1.index = 1 + p.length := by simpa using h5
  have hlt1 : l1.index < l1.source.length := by
    rw [hi1, hs1]
    simp only [List.length_cons, List.length_append]
    omega
  have hlt1' : l1.index + 1 < l1.source.length := by
    rw [hi1, hs1]
    simp only [List.length_cons, List.length_append]
    omega
  have hb1 : l1.byteAt = 92 := by
    show l1.source.getD l1.index 0 = 92
    rw [hs1, hi1]
    have hshape : (34 : Nat) :: p ++ 92 :: b :: s = (34 :: p) ++ 92 :: (b :: s) := by
      simp
    rw [hshape]
    have hlen2 : 1 + p.length = (34 :: p).length := by simp [Nat.add_comm]
    rw [hlen2]
    exact Lexer.getD_append_length (34 :: p) (b :: s) 92
  have hab : l1.advanceU.byteAt = b := by
    show l1.advanceU.source.getD l1.advanceU.index 0 = b
    rw [Lexer.advanceU_source, Lexer.advanceU_index, hs1, hi1]
    have hshape : (34 : Nat) :: p ++ 92 :: b :: s = (34 :: p ++ [92]) ++ b :: s := by
      simp
    rw [hshape]
    have hlen2 : 1 + p.length + 1 = (34 :: p ++ [92]).length := by
      simp <;> omega
    rw [hlen2]
    exact Lexer.getD_append_length (34 :: p ++ [92]) s b
  have hbadb : ¬(l1.advanceU.byteAt = 34 ∨ l1.advanceU.byteAt = 116 ∨
      l1.advanceU.byteAt = 110 ∨ l1.advanceU.byteAt = 114 ∨
      l1.advanceU.byteAt = 92 ∨ l1.advanceU.byteAt = 48) := by
    rw [hab]
    simp only [not_or]
    exact ⟨hb.1, hb.2.1, hb.2.2.1, hb.2.2.2.1, hb.2.2.2.2.1, hb.2.2.2.2.2.1⟩
  have hxb : ¬ l1.advanceU.byteAt = 120 := by rw [hab]; exact hb.2.2.2.2.2.2
  have hi2 : l1.advanceU.advanceU.index = p.length + 3 := by
    simp only [Lexer.advanceU_index, hi1]
    omega
  have hs2 : l1.advanceU.advanceU.source = 34 :: p ++ 92 :: b :: s := by
    simp [hs1]
  refine ⟨?_, ?_⟩
  · intro k hk
    have hpos := resyncSpec_pos s k hk
    have hend2 : l1.advanceU.advanceU.is_at_end = false := by
      rw [Lexer.is_at_end_false_iff, hi2, hs2]
      simp only [List.length_cons, List.length_append]
      omega
    obtain ⟨l3, hres, hsrc3, hidx3⟩ :=
      (Lexer.strResync_spec s (34 :: p ++ [92, b]) l1.advanceU.advanceU
        (by rw [hs2]; simp) (by rw [hi2]; simp <;> omega)).1 k hk
    have hlenA : ((34 : Nat) :: p ++ [92, b]).length = p.length + 3 := by
      simp <;> omega
    have hlenB : ((34 : Nat) :: p ++ 92 :: b :: s).length = p.length + 3 + s.length := by
      simp <;> omega
    have hend3 : l3.is_at_end = false := by
      rw [Lexer.is_at_end_false_iff, hidx3, hsrc3, hs2, hlenA, hlenB]
      omega
    have hfin := Lexer.strLoop_esc_invalid_ok hlt1 hb1 hlt1' hbadb hxb hend2 hres hend3
    have hq : Lexer.lex_quoted_string (Lexer.new (34 :: p ++ 92 :: b :: s)).advanceU =
        (Except.error LexerError.InvalidEscapeSequence, l3.advanceU) := by
      unfold Lexer.lex_quoted_string
      rw [if_neg (Lexer.not_at_end_of_lt hlt0)]
      split
      · rename_i e lf heq
        rw [hL, hfin] at heq
        simp only [Prod.mk.injEq, Except.error.injEq] at heq
        obtain ⟨hA, hB⟩ := heq
        rw [← hA, ← hB]
      · rename_i u lf heq
        rw [hL, hfin] at heq
        simp at heq
    constructor
    · rw [hmain, hq]
    · rw [hmain, hq]
      show l3.advanceU.index = p.length + 3 + k
      rw [Lexer.advanceU_index, hidx3, hlenA]
      omega
  · intro hnone
    by_cases hend2 : l1.advanceU.advanceU.is_at_end = true
    · have hfin := Lexer.strLoop_esc_invalid_end hlt1 hb1 hlt1' hbadb hxb hend2
      have hq : Lexer.lex_quoted_string (Lexer.new (34 :: p ++ 92 :: b :: s)).advanceU =
          (Except.error (LexerError.UnexpectedEofWhile Token.LitStr),
            l1.advanceU.advanceU) := by
        unfold Lexer.lex_quoted_string
        rw [if_neg (Lexer.not_at_end_of_lt hlt0)]
        split
        · rename_i e lf heq
          rw [hL, hfin] at heq
          simp only [Prod.mk.injEq, Except.error.injEq] at heq
          obtain ⟨hA, hB⟩ := heq
          rw [← hA, ← hB]
        · rename_i u lf heq
          rw [hL, hfin] at heq
          simp at heq
      constructor
      · rw [hmain, hq]
      · rw [hmain, hq]
        show l1.advanceU.advanceU.index = (34 :: p ++ 92 :: b :: s).length
        have hle := Lexer.len_le_of_end hend2
        rw [hi2, hs2] at hle
        rw [hi2]
        simp only [List.length_cons, List.length_append] at hle ⊢
        omega
    · have hend2' : l1.advanceU.advanceU.is_at_end = false := by
        simpa using hend2
      obtain ⟨hS, hI⟩ :=
        (Lexer.strResync_spec s (34 :: p ++ [92, b]) l1.advanceU.advanceU
          (by rw [hs2]; simp) (by rw [hi2]; simp <;> omega)).2 hnone
      rcases hres2 : l1.advanceU.advanceU.strResync with ⟨res, l3⟩
      rw [hres2] at hS hI
      dsimp only at hS hI
      rcases res with e | u
      · have he : e = LexerError.UnexpectedEofWhile Token.LitStr :=
          Lexer.strResync_err l1.advanceU.advanceU e (by rw [hres2])
        subst he
        have hfin := Lexer.strLoop_esc_invalid_err hlt1 hb1 hlt1' hbadb hxb hend2' hres2
        have hq : Lexer.lex_quoted_string (Lexer.new (34 :: p ++ 92 :: b :: s)).advanceU =
            (Except.error (LexerError.UnexpectedEofWhile Token.LitStr), l3) := by
          unfold Lexer.lex_quoted_string
          rw [if_neg (Lexer.not_at_end_of_lt hlt0)]
          split
          · rename_i e0 lf heq
            rw [hL, hfin] at heq
            simp only [Prod.mk.injEq, Except.error.injEq] at heq
            obtain ⟨hA, hB⟩ := heq
            rw [← hA, ← hB]
          · rename_i u0 lf heq
            rw [hL, hfin] at heq
            simp at heq
        constructor
        · rw [hmain, hq]
        · rw [hmain, hq]
          show l3.index = (34 :: p ++ 92 :: b :: s).length
          rw [hI, hs2]
      · have hend3 : l3.is_at_end = true := by
          rw [Lexer.is_at_end_iff, hS, hI]
        cases u
        have hfin := Lexer.strLoop_esc_invalid_ok_end hlt1 hb1 hlt1' hbadb hxb hend2'
          hres2 hend3
        have hq : Lexer.lex_quoted_string (Lexer.new (34 :: p ++ 92 :: b :: s)).advanceU =
            (Except.error (LexerError.UnexpectedEofWhile Token.LitStr), l3) := by
          unfold Lexer.lex_quoted_string
          rw [if_neg (Lexer.not_at_end_of_lt hlt0)]
          split
          · rename_i e0 lf heq
            rw [hL, hfin] at heq
            simp only [Prod.mk.injEq, Except.error.injEq] at heq
            obtain ⟨hA, hB⟩ := heq
            rw [← hA, ← hB]
          · rename_i u0 lf heq
            rw [hL, hfin] at heq
            simp at heq
        constructor
        · rw [hmain, hq]
        · rw [hmain, hq]
          show l3.index = (34 :: p ++ 92 :: b :: s).length
          rw [hI, hs2]

/-- Witness for C4 at the input `"\m"` followed by a closing quote: the
resynchronization finds the quote one byte after the invalid escape. -/
theorem C4_witness :
    (∀ x ∈ ([] : List Nat), x ≠ 34 ∧ x ≠ 92) ∧
    ((109 : Nat) ≠ 34 ∧ (109 : Nat) ≠ 116 ∧ (109 : Nat) ≠ 110 ∧ (109 : Nat) ≠ 114 ∧
      (109 : Nat) ≠ 92 ∧ (109 : Nat) ≠ 48 ∧ (109 : Nat) ≠ 120) ∧
    resyncSpec [34] = some 1 ∧
    ((Lexer.lex_single_token (Lexer.new (34 :: [] ++ 92 :: 109 :: [34]))).1 =
      Except.error LexerError.InvalidEscapeSequence ∧
    (Lexer.lex_single_token (Lexer.new (34 :: [] ++ 92 :: 109 :: [34]))).2.index =
      ([] : List Nat).length + 3 + 1) :=
  ⟨by simp, by decide, by decide,
    (C4_string_invalid_escape_resync [] 109 [34] (by simp) (by decide)).1 1 (by decide)⟩

end Mumbo
